import Mathlib

/-!
# Vox relay: the in-process matchmaking queue and room map of `main_dev.go`

A shallow embedding of the websocket side of `src/backend/src/main_dev.go`, followed by
the Redis-backed relay of `controllers/ws_handler.go` with `services/match_service.go`
and `services/translation_service.go` (namespaces `Controllers` and `Services`).

* Go maps (`queue`, `rooms`, `connections`) are association lists.  The order of the
  list is the order in which a `range` loop visits the map; Go leaves that order
  unspecified, so the reachable states are closed under reordering.
* A `*User` is an address into the store `State.users`; the three mutable fields of a
  `User` are read through the store at the time of use, as the Go code reads them
  through the pointer.  All `User` objects are taken as allocated from the start.
* A `*websocket.Conn` is an `Option Conn` (`none` is the nil pointer).
* `time.Now()` and `uuid.New()` are inputs of the handler (`Oracle`).
* Every handler returns the new state and the list of transport effects it performed,
  in program order.  Handlers run atomically; logging is left out.
-/

namespace Vox

/-- Address of a `User` object (a Go `*User`). -/
abbrev UserPtr := Nat

/-- Handle of an open websocket connection (a non-nil `*websocket.Conn`). -/
abbrev Conn := Nat

/-- The `User` struct of main_dev.go. -/
structure User where
  ID : String
  AnonymousID : String
  NativeLanguage : String
  TargetLanguage : String
  Interests : List String
  Country : String
deriving DecidableEq, Repr

/-- The `Report` struct of main_dev.go. -/
structure Report where
  ID : String
  ReporterID : String
  ReportedID : String
  Reason : String
  Details : String
  CreatedAt : Nat
deriving DecidableEq, Repr

/-- The `QueueEntry` struct: a pointer to the user, the connection, the enqueue time. -/
structure QueueEntry where
  User : UserPtr
  Conn : Option Conn
  JoinedAt : Nat
deriving DecidableEq, Repr

/-- The `Room` struct.  `User1` and `User2` are `*QueueEntry` in Go; a queue entry is
never written after it is built and every loop dereferences both members before any
nil test, so the entries are held by value. -/
structure Room where
  ID : String
  User1 : QueueEntry
  User2 : QueueEntry
  Created : Nat
deriving DecidableEq, Repr

/-- The `MatchFoundPayload` struct. -/
structure MatchFoundPayload where
  RoomID : String
  PartnerID : String
  PartnerLang : String
  PartnerCountry : String
  CommonInterests : List String
deriving DecidableEq, Repr

/-- The `ChatPayload` struct. -/
structure ChatPayload where
  Message : String
  SenderID : String
  Timestamp : Nat
deriving DecidableEq, Repr

/-- The payload of an outbound `WSMessage`, before JSON encoding. -/
inductive Payload where
  | omitted
  | matchFound (p : MatchFoundPayload)
  | chat (p : ChatPayload)
  | position (n : Nat)
  | languages (native target : String)
  | interests (l : List String)
  | userID (id : String)
deriving DecidableEq, Repr

/-- An outbound `WSMessage`: the `type` tag and the payload. -/
structure WSMessage where
  MsgType : String
  Payload : Payload
deriving DecidableEq, Repr

/-- What a handler does to the transport: `conn.WriteMessage` or `conn.Close`. -/
inductive Effect where
  | send (conn : Conn) (msg : WSMessage)
  | close (conn : Conn)
deriving DecidableEq, Repr

/-- The values a handler draws from the outside: the clock and the uuid generator. -/
structure Oracle where
  now : Nat
  later : Nat
  uuid : String
deriving DecidableEq, Repr

/-- The global variables of main_dev.go. -/
structure State where
  users : UserPtr → User
  queue : List (String × QueueEntry)
  rooms : List (String × Room)
  connections : List (String × Conn)
  reports : List Report

/-! ## Go maps as association lists -/

/-- Go `delete(m, k)`. -/
def mapDelete {β : Type} (m : List (String × β)) (k : String) : List (String × β) :=
  m.filter (fun kv => !(kv.1 == k))

/-- Go `m[k] = v`: the key is overwritten when present. -/
def mapSet {β : Type} (m : List (String × β)) (k : String) (v : β) : List (String × β) :=
  mapDelete m k ++ [(k, v)]

/-- Go `v, ok := m[k]`. -/
def mapGet {β : Type} (m : List (String × β)) (k : String) : Option β :=
  (m.find? (fun kv => kv.1 == k)).map Prod.snd

/-! ## Helpers -/

/-- Go `sendJSON`: nothing is written to a nil connection. -/
def sendJSON (conn : Option Conn) (msg : WSMessage) : List Effect :=
  match conn with
  | none => []
  | some c => [Effect.send c msg]

/-- The test `room.User1.User.ID == id || room.User2.User.ID == id`. -/
def isMember (s : State) (id : String) (room : Room) : Bool :=
  (s.users room.User1.User).ID == id || (s.users room.User2.User).ID == id

/-- The loop shared by handleTyping, handleReportUser, handleChat and leaveRoom: the
first room, in iteration order, that has `id` as a member. -/
def findRoom (s : State) (id : String) : Option (String × Room) :=
  s.rooms.find? (fun kv => isMember s id kv.2)

/-- The partner chosen inside those loops: `User2` when `User1` is `id`, else `User1`. -/
def partnerOf (s : State) (id : String) (room : Room) : QueueEntry :=
  if (s.users room.User1.User).ID = id then room.User2 else room.User1

/-! ## Matchmaking -/

/-- The reciprocity test of handleJoinQueue. -/
def eligible (user partner : User) : Bool :=
  partner.NativeLanguage == user.TargetLanguage && partner.TargetLanguage == user.NativeLanguage

/-- The score loop of handleJoinQueue: starts at 1 and adds 1 for every pair
`(ui, pi)` of an interest of the user and an interest of the partner with `ui == pi`. -/
def matchScore (user partner : User) : Nat :=
  user.Interests.foldl
    (fun score ui => partner.Interests.foldl
      (fun score pi => if ui = pi then score + 1 else score) score) 1

/-- The `commonInterests` loop of handleJoinQueue, with the same nesting. -/
def commonInterests (user partner : User) : List String :=
  user.Interests.foldl
    (fun acc ui => partner.Interests.foldl
      (fun acc pi => if ui = pi then acc ++ [ui] else acc) acc) []

/-- The three loop variables `bestMatch`, `bestMatchID`, `bestScore`. -/
structure Best where
  bestMatch : Option QueueEntry
  bestMatchID : String
  bestScore : Nat
deriving DecidableEq, Repr

/-- One iteration of `for id, partner := range queue`. -/
def scanStep (s : State) (user : User) (b : Best) (kv : String × QueueEntry) : Best :=
  if eligible user (s.users kv.2.User) then
    if matchScore user (s.users kv.2.User) > b.bestScore then
      { bestMatch := some kv.2, bestMatchID := kv.1,
        bestScore := matchScore user (s.users kv.2.User) }
    else b
  else b

/-- The whole scan of the queue, from `bestMatch = nil`, `bestScore = 0`. -/
def scanQueue (s : State) (user : User) : Best :=
  s.queue.foldl (scanStep s user) { bestMatch := none, bestMatchID := "", bestScore := 0 }

/-- The room id `"room-" + uuid.New().String()[:8]`. -/
def newRoomID (o : Oracle) : String := "room-" ++ o.uuid.take 8

/-- Go `handleJoinQueue(conn, user)`. -/
def handleJoinQueue (s : State) (o : Oracle) (conn : Option Conn) (user : UserPtr) :
    State × List Effect :=
  let u := s.users user
  if (mapGet s.queue u.ID).isSome then
    (s, sendJSON conn { MsgType := "already_in_queue", Payload := Payload.omitted })
  else if s.rooms.any (fun kv => isMember s u.ID kv.2) then
    (s, sendJSON conn { MsgType := "already_in_room", Payload := Payload.omitted })
  else
    let entry : QueueEntry := { User := user, Conn := conn, JoinedAt := o.now }
    let b := scanQueue s u
    match b.bestMatch with
    | some bestMatch =>
      let p := s.users bestMatch.User
      let common := commonInterests u p
      let roomID := newRoomID o
      let room : Room := { ID := roomID, User1 := entry, User2 := bestMatch, Created := o.later }
      let matchPayload1 : MatchFoundPayload :=
        { RoomID := roomID, PartnerID := p.AnonymousID, PartnerLang := p.NativeLanguage,
          PartnerCountry := p.Country, CommonInterests := common }
      let matchPayload2 : MatchFoundPayload :=
        { RoomID := roomID, PartnerID := u.AnonymousID, PartnerLang := u.NativeLanguage,
          PartnerCountry := u.Country, CommonInterests := common }
      ({ s with queue := mapDelete s.queue b.bestMatchID,
                rooms := mapSet s.rooms roomID room },
       sendJSON conn { MsgType := "match_found", Payload := Payload.matchFound matchPayload1 } ++
       sendJSON bestMatch.Conn
         { MsgType := "match_found", Payload := Payload.matchFound matchPayload2 })
    | none =>
      let queue1 := mapSet s.queue u.ID entry
      ({ s with queue := queue1 },
       sendJSON conn { MsgType := "queue_joined", Payload := Payload.position queue1.length })

/-- Go `handleLeaveQueue(user)`. -/
def handleLeaveQueue (s : State) (user : UserPtr) : State × List Effect :=
  let u := s.users user
  ({ s with queue := mapDelete s.queue u.ID },
   sendJSON (mapGet s.connections u.ID) { MsgType := "queue_left", Payload := Payload.omitted })

/-! ## Rooms and chat -/

/-- Go `leaveRoom(userID)`: the first room found with the user is closed, its other
member is told `partner_left`. -/
def leaveRoom (s : State) (userID : String) : State × List Effect :=
  match findRoom s userID with
  | none => (s, [])
  | some (roomID, room) =>
    ({ s with rooms := mapDelete s.rooms roomID },
     sendJSON (partnerOf s userID room).Conn
       { MsgType := "partner_left", Payload := Payload.omitted })

/-- Go `handleLeaveRoom(user)`. -/
def handleLeaveRoom (s : State) (user : UserPtr) : State × List Effect :=
  leaveRoom s (s.users user).ID

/-- Go `handleBlockUser(user)`. -/
def handleBlockUser (s : State) (user : UserPtr) : State × List Effect :=
  let r := leaveRoom s (s.users user).ID
  (r.1, r.2 ++ sendJSON (mapGet r.1.connections (s.users user).ID)
    { MsgType := "user_blocked", Payload := Payload.omitted })

/-- Go `handleTyping(user, isTyping)`. -/
def handleTyping (s : State) (user : UserPtr) (isTyping : Bool) : State × List Effect :=
  match findRoom s (s.users user).ID with
  | none => (s, [])
  | some (_, room) =>
    (s, sendJSON (partnerOf s (s.users user).ID room).Conn
      { MsgType := if isTyping then "partner_typing" else "partner_stop_typing",
        Payload := Payload.omitted })

/-- Go `handleChat(user, payload)`.  The payload is the decoded `message` field,
`none` when the JSON does not decode. -/
def handleChat (s : State) (o : Oracle) (user : UserPtr) (payload : Option String) :
    State × List Effect :=
  match payload with
  | none => (s, [])
  | some message =>
    if message = "" then (s, [])
    else
      let u := s.users user
      match findRoom s u.ID with
      | none => (s, [])
      | some (_, room) =>
        let chatPayload : ChatPayload :=
          { Message := message, SenderID := u.AnonymousID, Timestamp := o.now }
        (s, sendJSON (partnerOf s u.ID room).Conn
              { MsgType := "chat", Payload := Payload.chat chatPayload } ++
            sendJSON (mapGet s.connections u.ID)
              { MsgType := "chat_sent", Payload := Payload.chat chatPayload })

/-- Go `handleReportUser(user, payload)`.  The payload is the decoded pair
`(reason, details)`, `none` when the JSON does not decode. -/
def handleReportUser (s : State) (o : Oracle) (user : UserPtr)
    (payload : Option (String × String)) : State × List Effect :=
  match payload with
  | none => (s, [])
  | some data =>
    let u := s.users user
    let reportedID : String :=
      match findRoom s u.ID with
      | none => ""
      | some (_, room) => (s.users (partnerOf s u.ID room).User).ID
    if reportedID = "" then (s, [])
    else
      let report : Report :=
        { ID := o.uuid, ReporterID := u.ID, ReportedID := reportedID,
          Reason := data.1, Details := data.2, CreatedAt := o.now }
      ({ s with reports := s.reports ++ [report] },
       sendJSON (mapGet s.connections u.ID)
         { MsgType := "report_submitted", Payload := Payload.omitted })

/-! ## Preference updates -/

/-- The two guarded assignments of handleUpdateLanguages and handleUpdatePrefs. -/
def setLanguages (u : User) (native target : String) : User :=
  { u with
    NativeLanguage := if native = "" then u.NativeLanguage else native
    TargetLanguage := if target = "" then u.TargetLanguage else target }

/-- Go `handleUpdateLanguages(user, payload)`: writes through the user pointer. -/
def handleUpdateLanguages (s : State) (user : UserPtr) (payload : Option (String × String)) :
    State × List Effect :=
  match payload with
  | none => (s, [])
  | some langs =>
    let u1 := setLanguages (s.users user) langs.1 langs.2
    ({ s with users := Function.update s.users user u1 },
     sendJSON (mapGet s.connections u1.ID)
       { MsgType := "languages_updated",
         Payload := Payload.languages u1.NativeLanguage u1.TargetLanguage })

/-- Go `handleUpdateInterests(user, payload)`: writes through the user pointer. -/
def handleUpdateInterests (s : State) (user : UserPtr) (payload : Option (List String)) :
    State × List Effect :=
  match payload with
  | none => (s, [])
  | some interests =>
    let u1 : User := { s.users user with Interests := interests }
    ({ s with users := Function.update s.users user u1 },
     sendJSON (mapGet s.connections u1.ID)
       { MsgType := "interests_updated", Payload := Payload.interests u1.Interests })

/-! ## Connection lifecycle and dispatch -/

/-- A decoded inbound frame: the `type` tag with its decoded payload. -/
inductive Inbound where
  | join_queue
  | leave_queue
  | chat (payload : Option String)
  | typing
  | stop_typing
  | update_languages (payload : Option (String × String))
  | update_interests (payload : Option (List String))
  | report_user (payload : Option (String × String))
  | block_user
  | leave_room
  | ping
  | other (tag : String)
deriving DecidableEq, Repr

/-- The `switch msg.Type` of handleMessages, for the connection `conn` of `user`. -/
def handleMessages_dispatch (s : State) (o : Oracle) (conn : Conn) (user : UserPtr) :
    Inbound → State × List Effect
  | Inbound.join_queue => handleJoinQueue s o (some conn) user
  | Inbound.leave_queue => handleLeaveQueue s user
  | Inbound.chat payload => handleChat s o user payload
  | Inbound.typing => handleTyping s user true
  | Inbound.stop_typing => handleTyping s user false
  | Inbound.update_languages payload => handleUpdateLanguages s user payload
  | Inbound.update_interests payload => handleUpdateInterests s user payload
  | Inbound.report_user payload => handleReportUser s o user payload
  | Inbound.block_user => handleBlockUser s user
  | Inbound.leave_room => handleLeaveRoom s user
  | Inbound.ping => (s, sendJSON (some conn) { MsgType := "pong", Payload := Payload.omitted })
  | Inbound.other _ => (s, [])

/-- The deferred block of handleMessages: cleanup when the connection `conn` of
`user` ends. -/
def handleMessages_cleanup (s : State) (conn : Conn) (user : UserPtr) : State × List Effect :=
  let id := (s.users user).ID
  let s1 : State := { s with connections := mapDelete s.connections id }
  let s2 : State := { s1 with queue := mapDelete s1.queue id }
  let r := leaveRoom s2 id
  (r.1, r.2 ++ [Effect.close conn])

/-- The tail of handleWebSocket once the upgrade succeeded and the user was found:
the connection is registered and greeted. -/
def handleWebSocket_register (s : State) (conn : Conn) (user : UserPtr) : State × List Effect :=
  let id := (s.users user).ID
  ({ s with connections := mapSet s.connections id conn },
   sendJSON (some conn) { MsgType := "connected", Payload := Payload.userID id })

/-- Go `handleUpdatePrefs` (HTTP PATCH): writes the languages through the user pointer. -/
def handleUpdatePrefs (s : State) (user : UserPtr) (native target : String) : State :=
  { s with users := Function.update s.users user (setLanguages (s.users user) native target) }

/-- Everything that can happen to the relay. -/
inductive Event where
  | connect (conn : Conn) (user : UserPtr)
  | message (conn : Conn) (user : UserPtr) (o : Oracle) (msg : Inbound)
  | disconnect (conn : Conn) (user : UserPtr)
  | updatePrefs (user : UserPtr) (native target : String)

/-- One event, run to completion. -/
def step (s : State) : Event → State × List Effect
  | Event.connect conn user => handleWebSocket_register s conn user
  | Event.message conn user o msg => handleMessages_dispatch s o conn user msg
  | Event.disconnect conn user => handleMessages_cleanup s conn user
  | Event.updatePrefs user native target => (handleUpdatePrefs s user native target, [])

/-- The state at process start: the user objects `users`, every map empty. -/
def initState (users : UserPtr → User) : State :=
  { users := users, queue := [], rooms := [], connections := [], reports := [] }

/-- The states the relay can be in.  `reorder` is Go visiting a map in another order. -/
inductive Reachable : State → Prop where
  | init (users : UserPtr → User) : Reachable (initState users)
  | step (s : State) (ev : Event) : Reachable s → Reachable (step s ev).1
  | reorder (s : State) (q : List (String × QueueEntry)) (r : List (String × Room)) :
      Reachable s → q.Perm s.queue → r.Perm s.rooms →
      Reachable { s with queue := q, rooms := r }

/-! ## Predicates used by the statements -/

/-- The identity `id` has a queue entry. -/
def inQueue (s : State) (id : String) : Prop := (mapGet s.queue id).isSome = true

/-- The identity `id` is `User1` or `User2` of some room. -/
def inSomeRoom (s : State) (id : String) : Prop :=
  ∃ kv ∈ s.rooms, isMember s id kv.2 = true

/-- The number of pairs made of one entry of `us` and one entry of `ps` that hold the
same string. -/
def equalPairs (us ps : List String) : Nat :=
  ((List.product us ps).filter (fun p => p.1 == p.2)).length

/-- The number of distinct strings that occur in both lists. -/
def sharedCount (us ps : List String) : Nat := (us.toFinset ∩ ps.toFinset).card

/-- The identity `idA` is a member of a room whose other member is the entry `eB`. -/
def sharesRoomWith (s : State) (idA : String) (eB : QueueEntry) : Prop :=
  ∃ kv ∈ s.rooms, ((s.users kv.2.User1.User).ID = idA ∧ kv.2.User2 = eB) ∨
    ((s.users kv.2.User2.User).ID = idA ∧ kv.2.User1 = eB)

/-! ## The invariant of the reachable states -/

/-- What holds of the queue and the room map in every reachable state. -/
structure Inv (s : State) : Prop where
  key : ∀ kv ∈ s.queue, (s.users kv.2.User).ID = kv.1
  disj : ∀ kv ∈ s.queue, ∀ r ∈ s.rooms, isMember s kv.1 r.2 = false
  qconn : ∀ kv ∈ s.queue, kv.2.Conn.isSome = true
  rconn : ∀ r ∈ s.rooms, r.2.User1.Conn.isSome = true ∧ r.2.User2.Conn.isSome = true
  distinct : ∀ r ∈ s.rooms, (s.users r.2.User1.User).ID ≠ (s.users r.2.User2.User).ID
  single : ∀ r1 ∈ s.rooms, ∀ r2 ∈ s.rooms, ∀ id,
    isMember s id r1.2 = true → isMember s id r2.2 = true → r1 = r2

/-- The state `s1` has the ids of `s`, and no queue entry or room that `s` has not. -/
def Shrinks (s s1 : State) : Prop :=
  (∀ p, (s1.users p).ID = (s.users p).ID) ∧
  (∀ kv ∈ s1.queue, kv ∈ s.queue) ∧ (∀ r ∈ s1.rooms, r ∈ s.rooms)

/-! ## The values a join_queue builds -/

/-- The queue entry that handleJoinQueue builds for the sender. -/
def joinEntry (o : Oracle) (conn : Option Conn) (user : UserPtr) : QueueEntry :=
  { User := user, Conn := conn, JoinedAt := o.now }

/-- The room that handleJoinQueue builds for the sender and the partner `P`. -/
def joinRoom (o : Oracle) (conn : Option Conn) (user : UserPtr) (P : QueueEntry) : Room :=
  { ID := newRoomID o, User1 := joinEntry o conn user, User2 := P, Created := o.later }

/-! ## Concrete users and states for the scenarios -/

/-- The user objects of the scenarios: A and C (es to en, music and hiking), B (en to
es, music and travel), P1 (es to en, chess), P2 (es to en, music and travel), X (en to
es, the interest x twice), Y (es to en, the interest x once). -/
def demoUsers : UserPtr → User
  | 0 => ⟨"a", "NX-a", "es", "en", ["music", "hiking"], "ES"⟩
  | 1 => ⟨"b", "NX-b", "en", "es", ["music", "travel"], "US"⟩
  | 2 => ⟨"p1", "NX-p1", "es", "en", ["chess"], "MX"⟩
  | 3 => ⟨"p2", "NX-p2", "es", "en", ["music", "travel"], "AR"⟩
  | 4 => ⟨"x", "NX-x", "en", "es", ["x", "x"], "US"⟩
  | 5 => ⟨"y", "NX-y", "es", "en", ["x"], "ES"⟩
  | _ => ⟨"c", "NX-c", "es", "en", ["music", "hiking"], "CO"⟩

/-- The oracle of the scenarios. -/
def demoOracle (now : Nat) : Oracle := { now := now, later := now, uuid := "0123456789abcdef" }

/-- The state in which the entries `q` wait, with no room and no connection. -/
def demoQueue (q : List (String × QueueEntry)) : State :=
  { users := demoUsers, queue := q, rooms := [], connections := [], reports := [] }

/-- The queue entry of A. -/
def entryA : String × QueueEntry := ("a", { User := 0, Conn := some 100, JoinedAt := 5 })

/-- The queue entry of C, enqueued before A. -/
def entryC : String × QueueEntry := ("c", { User := 6, Conn := some 106, JoinedAt := 3 })

/-- The queue entry of P1. -/
def entryP1 : String × QueueEntry := ("p1", { User := 2, Conn := some 102, JoinedAt := 1 })

/-- The queue entry of P2. -/
def entryP2 : String × QueueEntry := ("p2", { User := 3, Conn := some 103, JoinedAt := 2 })

/-- A joins the queue at time 5 over connection 100, then B joins over connection 101. -/
def demoMatched : State :=
  (step (step (initState demoUsers)
    (Event.message 100 0 (demoOracle 5) Inbound.join_queue)).1
    (Event.message 101 1 (demoOracle 7) Inbound.join_queue)).1

/-! ## The frame read by handleMessages -/

/-- An inbound frame of handleMessages: the `type` tag, and what `json.Unmarshal` of
the raw payload gives for the struct of each handler (`none` when it fails). -/
structure Frame where
  MsgType : String
  message : Option String
  langs : Option (String × String)
  interests : Option (List String)
  report : Option (String × String)
deriving DecidableEq, Repr

/-- The case of `switch msg.Type` that a frame selects. -/
def frameKind (f : Frame) : Inbound :=
  if f.MsgType = "join_queue" then Inbound.join_queue
  else if f.MsgType = "leave_queue" then Inbound.leave_queue
  else if f.MsgType = "chat" then Inbound.chat f.message
  else if f.MsgType = "typing" then Inbound.typing
  else if f.MsgType = "stop_typing" then Inbound.stop_typing
  else if f.MsgType = "update_languages" then Inbound.update_languages f.langs
  else if f.MsgType = "update_interests" then Inbound.update_interests f.interests
  else if f.MsgType = "report_user" then Inbound.report_user f.report
  else if f.MsgType = "block_user" then Inbound.block_user
  else if f.MsgType = "leave_room" then Inbound.leave_room
  else if f.MsgType = "ping" then Inbound.ping
  else Inbound.other f.MsgType

/-- One turn of the read loop of handleMessages on a decoded frame. -/
def handleMessages_switch (s : State) (o : Oracle) (conn : Conn) (user : UserPtr)
    (f : Frame) : State × List Effect :=
  handleMessages_dispatch s o conn user (frameKind f)

/-! ## services/match_service.go and services/translation_service.go -/

namespace Services

/-- The `MatchRequest` struct. -/
structure MatchRequest where
  UserID : String
  NativeLanguage : String
  TargetLanguage : String
deriving DecidableEq, Repr

/-- A Redis sorted set of requests: each member with its score.  A member is the JSON
text of a request, which decodes back to the request, so the request itself is kept. -/
abbrev ZSet := List (Nat × MatchRequest)

/-- The order of Redis among members of equal score, taken as given: `before a b` says
that the JSON text of `a` sorts before the JSON text of `b` as bytes. -/
abbrev MemberOrder := MatchRequest → MatchRequest → Bool

/-- The Redis store behind `MatchService`: the sorted set under each key. -/
abbrev Redis := List (String × ZSet)

/-- Redis `ZADD key score member`: a member already present gets the new score. -/
def zAdd (z : ZSet) (score : Nat) (member : MatchRequest) : ZSet :=
  z.filter (fun e => !(e.2 == member)) ++ [(score, member)]

/-- The entry that Redis `ZPOPMIN` takes: the lowest score, and among members of that
score the one that sorts first. -/
def zMin (before : MemberOrder) : ZSet → Option (Nat × MatchRequest)
  | [] => none
  | e :: rest =>
    match zMin before rest with
    | none => some e
    | some m => if m.1 < e.1 ∨ (m.1 = e.1 ∧ before m.2 e.2 = true) then some m else some e

/-- The key `fmt.Sprintf("queue:%s:%s", native, target)`. -/
def queueKey (native target : String) : String := "queue:" ++ native ++ ":" ++ target

/-- Go `MatchService.AddToQueue(req)`, with `time.Now().Unix()` as `now`. -/
def AddToQueue (r : Redis) (now : Nat) (req : MatchRequest) : Redis :=
  mapSet r (queueKey req.NativeLanguage req.TargetLanguage)
    (zAdd ((mapGet r (queueKey req.NativeLanguage req.TargetLanguage)).getD []) now req)

/-- Go `MatchService.FindMatch(req)`: pops the lowest entry under the inverse key. -/
def FindMatch (before : MemberOrder) (r : Redis) (req : MatchRequest) :
    Redis × Option MatchRequest :=
  match mapGet r (queueKey req.TargetLanguage req.NativeLanguage) with
  | none => (r, none)
  | some z =>
    match zMin before z with
    | none => (r, none)
    | some m =>
      (mapSet r (queueKey req.TargetLanguage req.NativeLanguage) (z.erase m), some m.2)

/-- The `TranslationService` struct.  The client, when there is one, is the remote
model: from the prompt to an error or to the candidates.  A candidate is `none` when
it or its `Content` is a nil pointer, else its parts, each as the text that `%v`
prints. -/
structure TranslationService where
  client : Option (String → Except String (List (Option (List String))))

/-- The prompt built by `Translate`. -/
def translatePrompt (text fromLang toLang : String) : String :=
  "Translate the following text from " ++ fromLang ++ " to " ++ toLang ++
    ". Return ONLY the translated text without any explanations or quotes: " ++ text

/-- Go `TranslationService.Translate(text, fromLang, toLang)`: the returned string and
the returned error (`none` for nil).  The result is `none` when the call does not
return: the first candidate or its `Content` is nil and reading its parts panics. -/
def Translate (s : TranslationService) (text fromLang toLang : String) :
    Option (String × Option String) :=
  match s.client with
  | none => some (text, none)
  | some generate =>
    match generate (translatePrompt text fromLang toLang) with
    | Except.error err => some ("", some err)
    | Except.ok [] => some ("", some "no translation generated")
    | Except.ok (none :: _) => none
    | Except.ok (some parts :: _) =>
      if parts.length = 0 then some ("", some "no translation generated")
      else some (parts.foldl (fun translated part => translated ++ part) "", none)

end Services

/-! ## controllers/ws_handler.go -/

namespace Controllers

/-- The `Room` struct of ws_handler.go. -/
structure Room where
  ID : String
  User1 : String
  User2 : String
deriving DecidableEq, Repr

/-- The bytes of a Go string: the UTF-8 encoding of the text, each byte as a number. -/
def goBytes (s : String) : List Nat :=
  s.data.flatMap (fun c => (String.utf8EncodeChar c).map UInt8.toNat)

/-- The payload of an outbound message of ws_handler.go, before JSON encoding.  The
`anonymous_id` of `matched` is held as the bytes of the Go string. -/
inductive Payload where
  | omitted
  | status (status : String)
  | online (n : Nat)
  | matched (room_id partner_id : String) (partner_anonymous_id : List Nat)
  | chatMessage (sender text translated_text : String) (timestamp : Nat)
deriving DecidableEq, Repr

/-- An outbound `WSMessage` of ws_handler.go. -/
structure WSMessage where
  MsgType : String
  Payload : Payload
deriving DecidableEq, Repr

/-- What a handler does to the transport; `panic` is a run-time panic of the goroutine,
after which nothing more is done. -/
inductive Effect where
  | send (conn : Conn) (msg : WSMessage)
  | close (conn : Conn)
  | panic
deriving DecidableEq, Repr

/-- The `WSHandler` struct: the translation service (nil as `none`), the Redis store
of the match service, the connections and the rooms. -/
structure WSHandler where
  TranslationService : Option Services.TranslationService
  MatchService : Services.Redis
  connections : List (String × Conn)
  rooms : List (String × Room)

/-- The test of the loop of handleChat on one room: the sender is `User1` or `User2`. -/
def hasMember (room : Room) (senderID : String) : Bool :=
  room.User1 == senderID || room.User2 == senderID

/-- The partner that the loop of handleChat reads from a room of the sender. -/
def partnerIn (room : Room) (senderID : String) : String :=
  if room.User1 = senderID then room.User2 else room.User1

/-- The loop of handleChat: the first room, in iteration order, with the sender as
`User1` or `User2`, and the partner read from it. -/
def findRoom (h : WSHandler) (senderID : String) : Option (Room × String) :=
  match h.rooms.find? (fun kv => hasMember kv.2 senderID) with
  | none => none
  | some kv => some (kv.2, partnerIn kv.2 senderID)

/-- The last block of handleChat: the chat_message is written to the connection of the
partner when the registry has one. -/
def sendChat (h : WSHandler) (now : Nat) (senderID partnerID text translated : String) :
    List Effect :=
  match mapGet h.connections partnerID with
  | some conn =>
    [Effect.send conn
      { MsgType := "chat_message",
        Payload := Payload.chatMessage senderID text translated now }]
  | none => []

/-- Go `WSHandler.handleChat(senderID, payload)`.  The payload is the decoded `text`
field, `none` when the JSON does not decode (the text is then empty). -/
def handleChat (h : WSHandler) (now : Nat) (senderID : String) (payload : Option String) :
    WSHandler × List Effect :=
  let text := payload.getD ""
  match findRoom h senderID with
  | none => (h, [])
  | some (_, partnerID) =>
    match h.TranslationService with
    | none => (h, sendChat h now senderID partnerID text text)
    | some ts =>
      match Services.Translate ts text "auto" "en" with
      | none => (h, [Effect.panic])
      | some res =>
        (h, sendChat h now senderID partnerID text (if res.2 = none then res.1 else text))

/-- Go `WSHandler.notifyMatch(userID, partnerID, roomID)`.  `partnerID[:4]` is the
first four bytes of the id and panics when the id has fewer than four bytes. -/
def notifyMatch (h : WSHandler) (userID partnerID roomID : String) : List Effect :=
  match mapGet h.connections userID with
  | some conn =>
    if (goBytes partnerID).length < 4 then [Effect.panic]
    else
      [Effect.send conn
        { MsgType := "matched",
          Payload := Payload.matched roomID partnerID
            (goBytes "NexusPeer_" ++ (goBytes partnerID).take 4) }]
  | none => []

/-- Go `WSHandler.attemptMatch(req)`.  The room is stored before the two notifications;
the second one is not reached when the first panics. -/
def attemptMatch (before : Services.MemberOrder) (h : WSHandler)
    (req : Services.MatchRequest) : WSHandler × List Effect :=
  match Services.FindMatch before h.MatchService req with
  | (_, none) => (h, [])
  | (redis, some partner) =>
    let roomID := "room_" ++ req.UserID ++ "_" ++ partner.UserID
    let room : Room := { ID := roomID, User1 := req.UserID, User2 := partner.UserID }
    let h1 : WSHandler := { h with MatchService := redis, rooms := mapSet h.rooms roomID room }
    let first := notifyMatch h1 req.UserID partner.UserID roomID
    (h1, if Effect.panic ∈ first then first
         else first ++ notifyMatch h1 partner.UserID req.UserID roomID)

/-- The request that handleJoinQueue builds: the decoded payload (empty languages when
the JSON does not decode) with `UserID` set to the sender. -/
def joinRequest (userID : String) (payload : Option (String × String)) :
    Services.MatchRequest :=
  { UserID := userID, NativeLanguage := (payload.getD ("", "")).1,
    TargetLanguage := (payload.getD ("", "")).2 }

/-- Go `WSHandler.handleJoinQueue(userID, payload)` up to the `go` statement: the
request is enqueued and the sender is told `queue_joined`. -/
def handleJoinQueue (h : WSHandler) (now : Nat) (userID : String)
    (payload : Option (String × String)) : WSHandler × List Effect :=
  let h1 : WSHandler :=
    { h with MatchService := Services.AddToQueue h.MatchService now (joinRequest userID payload) }
  (h1, match mapGet h1.connections userID with
       | some conn => [Effect.send conn { MsgType := "queue_joined", Payload := Payload.omitted }]
       | none => [])

/-- Go `handleJoinQueue` followed by the `attemptMatch` it starts, with nothing run in
between. -/
def handleJoinQueue_thenMatch (before : Services.MemberOrder) (h : WSHandler) (now : Nat)
    (userID : String) (payload : Option (String × String)) : WSHandler × List Effect :=
  let r1 := handleJoinQueue h now userID payload
  let r2 := attemptMatch before r1.1 (joinRequest userID payload)
  (r2.1, r1.2 ++ r2.2)

/-- The registration of HandleWS once the token is valid and the upgrade succeeded. -/
def HandleWS_register (h : WSHandler) (conn : Conn) (userID : String) :
    WSHandler × List Effect :=
  ({ h with connections := mapSet h.connections userID conn },
   [Effect.send conn { MsgType := "connected", Payload := Payload.status "online" }])

/-- The deferred block of HandleWS: cleanup when the connection `conn` of `userID`
ends. -/
def HandleWS_cleanup (h : WSHandler) (conn : Conn) (userID : String) :
    WSHandler × List Effect :=
  ({ h with connections := mapDelete h.connections userID }, [Effect.close conn])

end Controllers

/-! ## Concrete states for the later scenarios -/

/-- A opens connection 100 and nothing else happens. -/
def demoConnected : State := (step (initState demoUsers) (Event.connect 100 0)).1

/-- Two users whose native and target language are both en. -/
def sameLangUsers : UserPtr → User
  | 0 => ⟨"z", "NX-z", "en", "en", ["music"], "US"⟩
  | _ => ⟨"w", "NX-w", "en", "en", ["music"], "GB"⟩

/-- Z sends join_queue twice, then W sends join_queue. -/
def demoSameLang : State :=
  (step (step (step (initState sameLangUsers)
    (Event.message 100 0 (demoOracle 1) Inbound.join_queue)).1
    (Event.message 100 0 (demoOracle 2) Inbound.join_queue)).1
    (Event.message 101 1 (demoOracle 3) Inbound.join_queue)).1

/-- A and B open the connections 100 and 101, A joins the queue, then B joins. -/
def demoChatting : State :=
  (step (step (step (step (initState demoUsers)
    (Event.connect 100 0)).1 (Event.connect 101 1)).1
    (Event.message 100 0 (demoOracle 5) Inbound.join_queue)).1
    (Event.message 101 1 (demoOracle 7) Inbound.join_queue)).1

/-- A handler of ws_handler.go with nothing queued, no room, and the connection 200 of
user-aaaa. -/
def demoIdle : Controllers.WSHandler :=
  { TranslationService := none, MatchService := [],
    connections := [("user-aaaa", 200)], rooms := [] }

/-- A request of user-aaaa whose native language holds the separator of the key. -/
def demoColonRequest : Services.MatchRequest :=
  { UserID := "user-aaaa", NativeLanguage := "a:b", TargetLanguage := "c" }

/-- A request of user-bbbb, native b:c and target a. -/
def demoSeeker : Services.MatchRequest :=
  { UserID := "user-bbbb", NativeLanguage := "b:c", TargetLanguage := "a" }

/-- A waits in the queue, enqueued as es to en, and then sends update_languages with
native language fr. -/
def demoRetargeted : State :=
  (handleUpdateLanguages (demoQueue [entryA]) 0 (some ("fr", ""))).1

/-- P1 and A wait in the queue, and A then sends update_interests with no interest. -/
def demoEmptied : State :=
  (handleUpdateInterests (demoQueue [entryP1, entryA]) 0 (some [])).1

/-- Every waiting request of the store is filed under the key that AddToQueue builds
from its own languages. -/
def Services.Filed (r : Services.Redis) : Prop :=
  ∀ kz ∈ r, ∀ e ∈ kz.2, kz.1 = Services.queueKey e.2.NativeLanguage e.2.TargetLanguage

/-! ## Lemmas on association lists -/

theorem mem_mapDelete {β : Type} (m : List (String × β)) (k : String) (kv : String × β) :
    kv ∈ mapDelete m k ↔ kv ∈ m ∧ kv.1 ≠ k := by
  simp [mapDelete]

theorem mapGet_isSome_iff {β : Type} (m : List (String × β)) (k : String) :
    (mapGet m k).isSome = true ↔ ∃ kv ∈ m, kv.1 = k := by
  simp [mapGet, List.find?_isSome]

theorem mapGet_eq_none_iff {β : Type} (m : List (String × β)) (k : String) :
    mapGet m k = none ↔ ∀ kv ∈ m, kv.1 ≠ k := by
  simp [mapGet, List.find?_eq_none]

theorem mapGet_mapDelete_self {β : Type} (m : List (String × β)) (k : String) :
    mapGet (mapDelete m k) k = none := by
  rw [mapGet_eq_none_iff]
  intro kv hkv
  exact ((mem_mapDelete m k kv).1 hkv).2

theorem mapGet_mapDelete_ne {β : Type} (m : List (String × β)) (k k' : String) (h : k' ≠ k) :
    mapGet (mapDelete m k) k' = mapGet m k' := by
  induction m with
  | nil => rfl
  | cons a m ih =>
    by_cases hak : a.1 = k
    · have h1 : mapDelete (a :: m) k = mapDelete m k := by simp [mapDelete, hak]
      have h2 : mapGet (a :: m) k' = mapGet m k' := by
        have : ¬ a.1 = k' := by rw [hak]; exact fun e => h e.symm
        simp [mapGet, List.find?_cons, this]
      rw [h1, h2, ih]
    · have h1 : mapDelete (a :: m) k = a :: mapDelete m k := by simp [mapDelete, hak]
      rw [h1]
      by_cases hak' : a.1 = k'
      · simp [mapGet, List.find?_cons, hak']
      · have e1 : mapGet (a :: mapDelete m k) k' = mapGet (mapDelete m k) k' := by
          simp [mapGet, List.find?_cons, hak']
        have e2 : mapGet (a :: m) k' = mapGet m k' := by
          simp [mapGet, List.find?_cons, hak']
        rw [e1, e2, ih]

theorem mem_mapSet {β : Type} (m : List (String × β)) (k : String) (v : β) (kv : String × β) :
    kv ∈ mapSet m k v ↔ (kv ∈ m ∧ kv.1 ≠ k) ∨ kv = (k, v) := by
  simp [mapSet, mem_mapDelete]

theorem mapDelete_of_absent {β : Type} (m : List (String × β)) (k : String)
    (h : ∀ kv ∈ m, kv.1 ≠ k) : mapDelete m k = m := by
  simp only [mapDelete, List.filter_eq_self]
  intro kv hkv
  simpa using h kv hkv

/-! ## Lemmas on the score and on the scan of the queue -/

theorem inner_score_ge (ui : String) (l : List String) (n : Nat) :
    n ≤ l.foldl (fun score pi => if ui = pi then score + 1 else score) n := by
  induction l generalizing n with
  | nil => exact Nat.le_refl n
  | cons a l ih =>
    simp only [List.foldl_cons]
    split
    · exact Nat.le_trans (Nat.le_succ n) (ih (n + 1))
    · exact ih n

theorem outer_score_ge (us ps : List String) (n : Nat) :
    n ≤ us.foldl (fun score ui => ps.foldl
      (fun score pi => if ui = pi then score + 1 else score) score) n := by
  induction us generalizing n with
  | nil => exact Nat.le_refl n
  | cons a l ih =>
    simp only [List.foldl_cons]
    exact Nat.le_trans (inner_score_ge a ps n) (ih _)

theorem matchScore_pos (user partner : User) : 1 ≤ matchScore user partner :=
  outer_score_ge user.Interests partner.Interests 1

/-- What the scan of a list `l` from loop variables `b` ends with: either nothing was
assigned, or the variables hold an eligible entry of `l` that beats `b`, beats every
eligible entry before it and is not beaten by any eligible entry of `l`. -/
theorem scan_foldl_spec (s : State) (user : User) (l : List (String × QueueEntry)) (b : Best) :
    (∀ kv ∈ l, eligible user (s.users kv.2.User) = true →
      matchScore user (s.users kv.2.User) ≤ (l.foldl (scanStep s user) b).bestScore) ∧
    b.bestScore ≤ (l.foldl (scanStep s user) b).bestScore ∧
    (l.foldl (scanStep s user) b = b ∨
      ∃ l1 kv l2, l = l1 ++ kv :: l2 ∧
        l.foldl (scanStep s user) b =
          { bestMatch := some kv.2, bestMatchID := kv.1,
            bestScore := matchScore user (s.users kv.2.User) } ∧
        eligible user (s.users kv.2.User) = true ∧
        b.bestScore < matchScore user (s.users kv.2.User) ∧
        ∀ kv1 ∈ l1, eligible user (s.users kv1.2.User) = true →
          matchScore user (s.users kv1.2.User) < matchScore user (s.users kv.2.User)) := by
  induction l generalizing b with
  | nil => simp
  | cons a l ih =>
    simp only [List.foldl_cons]
    obtain ⟨h1, h2, h3⟩ := ih (scanStep s user b a)
    have hb : b.bestScore ≤ (scanStep s user b a).bestScore := by
      unfold scanStep
      split
      · split
        · rename_i hlt; exact Nat.le_of_lt hlt
        · exact Nat.le_refl _
      · exact Nat.le_refl _
    have ha : eligible user (s.users a.2.User) = true →
        matchScore user (s.users a.2.User) ≤ (scanStep s user b a).bestScore := by
      intro he
      unfold scanStep
      rw [if_pos he]
      split
      · exact Nat.le_refl _
      · rename_i hn; exact Nat.le_of_not_lt hn
    refine ⟨?_, Nat.le_trans hb h2, ?_⟩
    · intro kv hkv he
      rcases List.mem_cons.1 hkv with rfl | hmem
      · exact Nat.le_trans (ha he) h2
      · exact h1 kv hmem he
    · rcases h3 with heq | ⟨l1, kv, l2, hl, hres, hel, hlt, hbefore⟩
      · rw [heq]
        by_cases he : eligible user (s.users a.2.User) = true
        · by_cases hgt : matchScore user (s.users a.2.User) > b.bestScore
          · right
            refine ⟨[], a, l, rfl, ?_, he, hgt, ?_⟩
            · simp [scanStep, he, hgt]
            · intro kv1 hkv1; simp at hkv1
          · left; simp [scanStep, he, hgt]
        · left; simp [scanStep, he]
      · right
        refine ⟨a :: l1, kv, l2, by rw [hl]; rfl, hres, hel, Nat.lt_of_le_of_lt hb hlt, ?_⟩
        intro kv1 hkv1 he1
        rcases List.mem_cons.1 hkv1 with rfl | hmem
        · exact Nat.lt_of_le_of_lt (ha he1) hlt
        · exact hbefore kv1 hmem he1

/-- The scan finds nothing exactly when the queue has no eligible entry. -/
theorem scanQueue_none_iff (s : State) (user : User) :
    (scanQueue s user).bestMatch = none ↔
      ∀ kv ∈ s.queue, eligible user (s.users kv.2.User) = false := by
  obtain ⟨h1, _, h3⟩ := scan_foldl_spec s user s.queue
    { bestMatch := none, bestMatchID := "", bestScore := 0 }
  constructor
  · intro hnone kv hkv
    by_contra hne
    have he : eligible user (s.users kv.2.User) = true := by simpa using hne
    rcases h3 with heq | ⟨l1, kv2, l2, _, hres, _⟩
    · have := h1 kv hkv he
      rw [heq] at this
      exact absurd (Nat.le_trans (matchScore_pos user _) this) (by simp)
    · unfold scanQueue at hnone
      rw [hres] at hnone
      simp at hnone
  · intro hall
    rcases h3 with heq | ⟨l1, kv2, l2, hl, _, hel, _⟩
    · unfold scanQueue; rw [heq]
    · have hmem : kv2 ∈ s.queue := by rw [hl]; simp
      rw [hall kv2 hmem] at hel
      exact absurd hel (by simp)

/-- What the scan holds when it found a partner. -/
theorem scanQueue_some (s : State) (user : User) (P : QueueEntry)
    (h : (scanQueue s user).bestMatch = some P) :
    ∃ l1 l2, s.queue = l1 ++ ((scanQueue s user).bestMatchID, P) :: l2 ∧
      eligible user (s.users P.User) = true ∧
      (scanQueue s user).bestScore = matchScore user (s.users P.User) ∧
      (∀ kv ∈ s.queue, eligible user (s.users kv.2.User) = true →
        matchScore user (s.users kv.2.User) ≤ matchScore user (s.users P.User)) ∧
      (∀ kv ∈ l1, eligible user (s.users kv.2.User) = true →
        matchScore user (s.users kv.2.User) < matchScore user (s.users P.User)) := by
  obtain ⟨h1, _, h3⟩ := scan_foldl_spec s user s.queue
    { bestMatch := none, bestMatchID := "", bestScore := 0 }
  rcases h3 with heq | ⟨l1, kv, l2, hl, hres, hel, _, hbefore⟩
  · unfold scanQueue at h; rw [heq] at h; simp at h
  · have hres2 : scanQueue s user =
        ⟨some kv.2, kv.1, matchScore user (s.users kv.2.User)⟩ := hres
    rw [hres2] at h
    have hP : kv.2 = P := by simpa using h
    subst hP
    refine ⟨l1, l2, ?_, hel, ?_, ?_, hbefore⟩
    · rw [hres2]; exact hl
    · rw [hres2]
    · intro kv1 hkv1 he1
      have := h1 kv1 hkv1 he1
      rw [hres] at this
      exact this

/-! ## The four outcomes of handleJoinQueue -/

theorem not_inSomeRoom_iff (s : State) (id : String) :
    ¬ inSomeRoom s id ↔ s.rooms.any (fun kv => isMember s id kv.2) = false := by
  unfold inSomeRoom
  rw [← Bool.not_eq_true, List.any_eq_true]

theorem handleJoinQueue_queued (s : State) (o : Oracle) (conn : Option Conn) (user : UserPtr)
    (h : inQueue s (s.users user).ID) :
    handleJoinQueue s o conn user =
      (s, sendJSON conn { MsgType := "already_in_queue", Payload := Payload.omitted }) := by
  unfold inQueue at h
  simp [handleJoinQueue, h]

theorem handleJoinQueue_inRoom (s : State) (o : Oracle) (conn : Option Conn) (user : UserPtr)
    (hq : ¬ inQueue s (s.users user).ID) (hr : inSomeRoom s (s.users user).ID) :
    handleJoinQueue s o conn user =
      (s, sendJSON conn { MsgType := "already_in_room", Payload := Payload.omitted }) := by
  have h1 : ¬ (mapGet s.queue (s.users user).ID).isSome = true := hq
  have h2 : s.rooms.any (fun kv => isMember s (s.users user).ID kv.2) = true := by
    rw [List.any_eq_true]; exact hr
  unfold handleJoinQueue
  simp only [h1, h2, if_true, if_false]
  rfl

theorem handleJoinQueue_match (s : State) (o : Oracle) (conn : Option Conn) (user : UserPtr)
    (P : QueueEntry)
    (hq : ¬ inQueue s (s.users user).ID) (hr : ¬ inSomeRoom s (s.users user).ID)
    (hm : (scanQueue s (s.users user)).bestMatch = some P) :
    handleJoinQueue s o conn user =
      ({ s with
          queue := mapDelete s.queue (scanQueue s (s.users user)).bestMatchID,
          rooms := mapSet s.rooms (newRoomID o)
            { ID := newRoomID o, User1 := { User := user, Conn := conn, JoinedAt := o.now },
              User2 := P, Created := o.later } },
       sendJSON conn
         { MsgType := "match_found",
           Payload := Payload.matchFound
             { RoomID := newRoomID o, PartnerID := (s.users P.User).AnonymousID,
               PartnerLang := (s.users P.User).NativeLanguage,
               PartnerCountry := (s.users P.User).Country,
               CommonInterests := commonInterests (s.users user) (s.users P.User) } } ++
       sendJSON P.Conn
         { MsgType := "match_found",
           Payload := Payload.matchFound
             { RoomID := newRoomID o, PartnerID := (s.users user).AnonymousID,
               PartnerLang := (s.users user).NativeLanguage,
               PartnerCountry := (s.users user).Country,
               CommonInterests := commonInterests (s.users user) (s.users P.User) } }) := by
  have h1 : ¬ (mapGet s.queue (s.users user).ID).isSome = true := hq
  have h2 : ¬ s.rooms.any (fun kv => isMember s (s.users user).ID kv.2) = true := by
    rw [Bool.not_eq_true]; exact (not_inSomeRoom_iff s _).1 hr
  unfold handleJoinQueue
  simp only [h1, h2, if_false, hm]
  rfl

theorem handleJoinQueue_nomatch (s : State) (o : Oracle) (conn : Option Conn) (user : UserPtr)
    (hq : ¬ inQueue s (s.users user).ID) (hr : ¬ inSomeRoom s (s.users user).ID)
    (hm : (scanQueue s (s.users user)).bestMatch = none) :
    handleJoinQueue s o conn user =
      ({ s with
          queue := mapSet s.queue (s.users user).ID
            { User := user, Conn := conn, JoinedAt := o.now } },
       sendJSON conn
         { MsgType := "queue_joined",
           Payload := Payload.position (mapSet s.queue (s.users user).ID
             { User := user, Conn := conn, JoinedAt := o.now }).length }) := by
  have h1 : ¬ (mapGet s.queue (s.users user).ID).isSome = true := hq
  have h2 : ¬ s.rooms.any (fun kv => isMember s (s.users user).ID kv.2) = true := by
    rw [Bool.not_eq_true]; exact (not_inSomeRoom_iff s _).1 hr
  unfold handleJoinQueue
  simp only [h1, h2, if_false, hm]
  rfl

/-! ## The invariant of the reachable states: proofs -/

theorem isMember_congr (s s1 : State) (hid : ∀ p, (s1.users p).ID = (s.users p).ID)
    (id : String) (room : Room) : isMember s1 id room = isMember s id room := by
  simp [isMember, hid]

theorem Inv_of_Shrinks (s s1 : State) (h : Shrinks s s1) (hs : Inv s) : Inv s1 := by
  obtain ⟨hid, hq, hr⟩ := h
  refine ⟨?_, ?_, ?_, ?_, ?_, ?_⟩
  · intro kv hkv; rw [hid]; exact hs.key kv (hq kv hkv)
  · intro kv hkv r hr1
    rw [isMember_congr s s1 hid]; exact hs.disj kv (hq kv hkv) r (hr r hr1)
  · intro kv hkv; exact hs.qconn kv (hq kv hkv)
  · intro r hr1; exact hs.rconn r (hr r hr1)
  · intro r hr1; rw [hid, hid]; exact hs.distinct r (hr r hr1)
  · intro r1 h1 r2 h2 id m1 m2
    rw [isMember_congr s s1 hid] at m1 m2
    exact hs.single r1 (hr r1 h1) r2 (hr r2 h2) id m1 m2

theorem Shrinks_refl (s : State) : Shrinks s s :=
  ⟨fun _ => rfl, fun _ h => h, fun _ h => h⟩

theorem Shrinks_leaveRoom (s : State) (id : String) : Shrinks s (leaveRoom s id).1 := by
  unfold leaveRoom
  split
  · exact Shrinks_refl s
  · exact ⟨fun _ => rfl, fun _ h => h, fun r h => ((mem_mapDelete _ _ r).1 h).1⟩

theorem setLanguages_ID (u : User) (a b : String) : (setLanguages u a b).ID = u.ID := rfl

theorem update_ID (s : State) (user : UserPtr) (u1 : User) (h : u1.ID = (s.users user).ID)
    (p : UserPtr) : (Function.update s.users user u1 p).ID = (s.users p).ID := by
  by_cases hp : p = user
  · subst hp; simp [h]
  · simp [Function.update, hp]

theorem Shrinks_dispatch_other (s : State) (o : Oracle) (conn : Conn) (user : UserPtr)
    (msg : Inbound) (hmsg : msg ≠ Inbound.join_queue) :
    Shrinks s (handleMessages_dispatch s o conn user msg).1 := by
  cases msg with
  | join_queue => exact absurd rfl hmsg
  | leave_queue =>
    exact ⟨fun _ => rfl, fun kv h => ((mem_mapDelete _ _ kv).1 h).1, fun _ h => h⟩
  | chat payload =>
    simp only [handleMessages_dispatch, handleChat]
    repeat' split
    all_goals exact Shrinks_refl s
  | typing =>
    simp only [handleMessages_dispatch, handleTyping]
    split <;> exact Shrinks_refl s
  | stop_typing =>
    simp only [handleMessages_dispatch, handleTyping]
    split <;> exact Shrinks_refl s
  | update_languages payload =>
    simp only [handleMessages_dispatch, handleUpdateLanguages]
    split
    · exact Shrinks_refl s
    · exact ⟨update_ID s user _ (setLanguages_ID _ _ _), fun _ h => h, fun _ h => h⟩
  | update_interests payload =>
    simp only [handleMessages_dispatch, handleUpdateInterests]
    split
    · exact Shrinks_refl s
    · exact ⟨update_ID s user _ rfl, fun _ h => h, fun _ h => h⟩
  | report_user payload =>
    simp only [handleMessages_dispatch, handleReportUser]
    split
    · exact Shrinks_refl s
    · split
      · exact Shrinks_refl s
      · exact ⟨fun _ => rfl, fun _ h => h, fun _ h => h⟩
  | block_user => exact Shrinks_leaveRoom s _
  | leave_room => exact Shrinks_leaveRoom s _
  | ping => exact Shrinks_refl s
  | other tag => exact Shrinks_refl s

theorem Shrinks_cleanup (s : State) (conn : Conn) (user : UserPtr) :
    Shrinks s (handleMessages_cleanup s conn user).1 := by
  have h := Shrinks_leaveRoom
    { s with connections := mapDelete s.connections (s.users user).ID,
             queue := mapDelete s.queue (s.users user).ID } (s.users user).ID
  obtain ⟨h1, h2, h3⟩ := h
  exact ⟨h1, fun kv hkv => ((mem_mapDelete _ _ kv).1 (h2 kv hkv)).1, h3⟩

/-- The invariant is kept by a join_queue. -/
theorem Inv_handleJoinQueue (s : State) (o : Oracle) (conn : Conn) (user : UserPtr)
    (hs : Inv s) : Inv (handleJoinQueue s o (some conn) user).1 := by
  by_cases hq : inQueue s (s.users user).ID
  · rw [handleJoinQueue_queued s o _ user hq]; exact hs
  by_cases hr : inSomeRoom s (s.users user).ID
  · rw [handleJoinQueue_inRoom s o _ user hq hr]; exact hs
  have hq1 : ∀ kv ∈ s.queue, kv.1 ≠ (s.users user).ID := by
    have : mapGet s.queue (s.users user).ID = none := by
      unfold inQueue at hq
      simpa using hq
    exact (mapGet_eq_none_iff _ _).1 this
  have hr1 : ∀ r ∈ s.rooms, isMember s (s.users user).ID r.2 = false := by
    intro r hmem
    by_contra hne
    exact hr ⟨r, hmem, by simpa using hne⟩
  cases hm : (scanQueue s (s.users user)).bestMatch with
  | none =>
    rw [handleJoinQueue_nomatch s o _ user hq hr hm]
    refine ⟨?_, ?_, ?_, hs.rconn, hs.distinct, hs.single⟩
    · intro kv hkv
      rcases (mem_mapSet _ _ _ kv).1 hkv with ⟨h1, _⟩ | rfl
      · exact hs.key kv h1
      · rfl
    · intro kv hkv r hmem
      rcases (mem_mapSet _ _ _ kv).1 hkv with ⟨h1, _⟩ | rfl
      · exact hs.disj kv h1 r hmem
      · exact hr1 r hmem
    · intro kv hkv
      rcases (mem_mapSet _ _ _ kv).1 hkv with ⟨h1, _⟩ | rfl
      · exact hs.qconn kv h1
      · rfl
  | some P =>
    rw [handleJoinQueue_match s o _ user P hq hr hm]
    obtain ⟨l1, l2, hl, _, _, _, _⟩ := scanQueue_some s (s.users user) P hm
    have hPmem : ((scanQueue s (s.users user)).bestMatchID, P) ∈ s.queue := by
      rw [hl]; simp
    have hPkey : (s.users P.User).ID = (scanQueue s (s.users user)).bestMatchID :=
      hs.key _ hPmem
    have hPr : ∀ r ∈ s.rooms, isMember s (s.users P.User).ID r.2 = false := by
      intro r hmem; rw [hPkey]; exact hs.disj _ hPmem r hmem
    have hne : (s.users user).ID ≠ (s.users P.User).ID := by
      rw [hPkey]; exact fun e => hq1 _ hPmem e.symm
    have hnew : ∀ id, isMember s id
        { ID := newRoomID o, User1 := { User := user, Conn := some conn, JoinedAt := o.now },
          User2 := P, Created := o.later } = true →
        id = (s.users user).ID ∨ id = (s.users P.User).ID := by
      intro id hid
      simp only [isMember, Bool.or_eq_true, beq_iff_eq] at hid
      rcases hid with h | h
      · exact Or.inl h.symm
      · exact Or.inr h.symm
    refine ⟨?_, ?_, ?_, ?_, ?_, ?_⟩
    · intro kv hkv; exact hs.key kv ((mem_mapDelete _ _ kv).1 hkv).1
    · intro kv hkv r hmem
      obtain ⟨hk1, hk2⟩ := (mem_mapDelete _ _ kv).1 hkv
      rcases (mem_mapSet _ _ _ r).1 hmem with ⟨h1, _⟩ | rfl
      · exact hs.disj kv hk1 r h1
      · by_contra hc
        rcases hnew kv.1 (by simpa using hc) with h | h
        · exact hq1 kv hk1 h
        · exact hk2 (h.trans hPkey)
    · intro kv hkv; exact hs.qconn kv ((mem_mapDelete _ _ kv).1 hkv).1
    · intro r hmem
      rcases (mem_mapSet _ _ _ r).1 hmem with ⟨h1, _⟩ | rfl
      · exact hs.rconn r h1
      · exact ⟨rfl, hs.qconn _ hPmem⟩
    · intro r hmem
      rcases (mem_mapSet _ _ _ r).1 hmem with ⟨h1, _⟩ | rfl
      · exact hs.distinct r h1
      · exact hne
    · intro r1 hm1 r2 hm2 id m1 m2
      have old_new : ∀ r ∈ s.rooms, isMember s id r.2 = true →
          isMember s id
            { ID := newRoomID o,
              User1 := { User := user, Conn := some conn, JoinedAt := o.now },
              User2 := P, Created := o.later } = true → False := by
        intro r hmem hm hn
        rcases hnew id hn with h | h
        · rw [h, hr1 r hmem] at hm; exact absurd hm (by simp)
        · rw [h, hPr r hmem] at hm; exact absurd hm (by simp)
      rcases (mem_mapSet _ _ _ r1).1 hm1 with ⟨h1, _⟩ | rfl
      · rcases (mem_mapSet _ _ _ r2).1 hm2 with ⟨h2, _⟩ | rfl
        · exact hs.single r1 h1 r2 h2 id m1 m2
        · exact (old_new r1 h1 m1 m2).elim
      · rcases (mem_mapSet _ _ _ r2).1 hm2 with ⟨h2, _⟩ | rfl
        · exact (old_new r2 h2 m2 m1).elim
        · rfl

/-- Every reachable state satisfies the invariant. -/
theorem Inv_of_Reachable (s : State) (h : Reachable s) : Inv s := by
  induction h with
  | init users =>
    refine ⟨?_, ?_, ?_, ?_, ?_, ?_⟩ <;> simp [initState]
  | step s ev _ ih =>
    cases ev with
    | connect conn user => exact Inv_of_Shrinks s _ ⟨fun _ => rfl, fun _ h => h, fun _ h => h⟩ ih
    | message conn user o msg =>
      by_cases hmsg : msg = Inbound.join_queue
      · subst hmsg; exact Inv_handleJoinQueue s o conn user ih
      · exact Inv_of_Shrinks s _ (Shrinks_dispatch_other s o conn user msg hmsg) ih
    | disconnect conn user => exact Inv_of_Shrinks s _ (Shrinks_cleanup s conn user) ih
    | updatePrefs user native target =>
      exact Inv_of_Shrinks s _
        ⟨update_ID s user _ (setLanguages_ID _ _ _), fun _ h => h, fun _ h => h⟩ ih
  | reorder s q r _ hq hr ih =>
    exact Inv_of_Shrinks s _
      ⟨fun _ => rfl, fun kv h => (hq.mem_iff).1 h, fun kv h => (hr.mem_iff).1 h⟩ ih

/-! ## The claims -/

theorem demoMatched_reachable : Reachable demoMatched :=
  Reachable.step _ _ (Reachable.step _ _ (Reachable.init demoUsers))

/-- C1: in every state reachable from the empty queue and room map, by any sequence of
events of any identities (join_queue, leave_queue, chat, leave_room, block_user,
disconnect cleanup, and every other event of the relay), no identity id is both a key
of the queue and a member of a room. -/
theorem C1_never_queued_and_in_room (s : State) (h : Reachable s) (id : String) :
    ¬ (inQueue s id ∧ inSomeRoom s id) := by
  rintro ⟨hq, r, hr, hm⟩
  obtain ⟨kv, hkv, hk⟩ := (mapGet_isSome_iff s.queue id).1 hq
  have := (Inv_of_Reachable s h).disj kv hkv r hr
  rw [hk, hm] at this
  exact absurd this (by simp)

theorem C1_never_queued_and_in_room_witness :
    Reachable demoMatched ∧ ¬ (inQueue demoMatched "b" ∧ inSomeRoom demoMatched "b") :=
  ⟨demoMatched_reachable, C1_never_queued_and_in_room demoMatched demoMatched_reachable "b"⟩

/-- The rooms that a join_queue of a sender who is neither queued nor in a room adds
to the room map: exactly the room of the sender with the partner found by the scan. -/
theorem handleJoinQueue_new_room (s : State) (o : Oracle) (conn : Option Conn) (user : UserPtr)
    (hq : ¬ inQueue s (s.users user).ID) (hr : ¬ inSomeRoom s (s.users user).ID)
    (kv : String × Room) :
    (kv ∈ (handleJoinQueue s o conn user).1.rooms ∧ kv ∉ s.rooms) ↔
      ∃ P, (scanQueue s (s.users user)).bestMatch = some P ∧
        kv = (newRoomID o, joinRoom o conn user P) := by
  cases hm : (scanQueue s (s.users user)).bestMatch with
  | none =>
    rw [handleJoinQueue_nomatch s o conn user hq hr hm]
    constructor
    · rintro ⟨h1, h2⟩; exact absurd h1 h2
    · rintro ⟨P, hP, _⟩; exact absurd hP (by simp)
  | some P =>
    rw [handleJoinQueue_match s o conn user P hq hr hm]
    constructor
    · rintro ⟨h1, h2⟩
      rcases (mem_mapSet _ _ _ kv).1 h1 with ⟨h3, _⟩ | h3
      · exact absurd h3 h2
      · exact ⟨P, rfl, h3⟩
    · rintro ⟨P1, hP1, hkv⟩
      have hPP : P = P1 := by simpa using hP1
      subst hPP
      refine ⟨(mem_mapSet _ _ _ kv).2 (Or.inr hkv), ?_⟩
      intro hmem
      apply hr
      refine ⟨kv, hmem, ?_⟩
      rw [hkv]
      simp [isMember, joinRoom, joinEntry]

/-- C2: for every state and every sender that is neither queued nor in a room,
handleJoinQueue adds a room to the room map if and only if the queue holds an entry
whose native language is the sender's target language and whose target language is the
sender's native language; and the second member of every room it adds is such a
reciprocal entry of the queue. -/
theorem C2_match_iff_reciprocal (s : State) (o : Oracle) (conn : Option Conn) (user : UserPtr)
    (hq : ¬ inQueue s (s.users user).ID) (hr : ¬ inSomeRoom s (s.users user).ID) :
    ((∃ kv ∈ (handleJoinQueue s o conn user).1.rooms, kv ∉ s.rooms) ↔
      ∃ e ∈ s.queue, (s.users e.2.User).NativeLanguage = (s.users user).TargetLanguage ∧
        (s.users e.2.User).TargetLanguage = (s.users user).NativeLanguage) ∧
    (∀ kv ∈ (handleJoinQueue s o conn user).1.rooms, kv ∉ s.rooms →
      (∃ id, (id, kv.2.User2) ∈ s.queue) ∧
      (s.users kv.2.User2.User).NativeLanguage = (s.users user).TargetLanguage ∧
      (s.users kv.2.User2.User).TargetLanguage = (s.users user).NativeLanguage) := by
  have helig : ∀ p : User, eligible (s.users user) p = true ↔
      (p.NativeLanguage = (s.users user).TargetLanguage ∧
        p.TargetLanguage = (s.users user).NativeLanguage) := by
    intro p; simp [eligible]
  constructor
  · constructor
    · rintro ⟨kv, h1, h2⟩
      obtain ⟨P, hP, _⟩ := (handleJoinQueue_new_room s o conn user hq hr kv).1 ⟨h1, h2⟩
      obtain ⟨l1, l2, hl, hel, _⟩ := scanQueue_some s (s.users user) P hP
      exact ⟨((scanQueue s (s.users user)).bestMatchID, P), by rw [hl]; simp,
        (helig _).1 hel⟩
    · rintro ⟨e, he, hlang⟩
      cases hm : (scanQueue s (s.users user)).bestMatch with
      | none =>
        have := (scanQueue_none_iff s (s.users user)).1 hm e he
        rw [(helig _).2 hlang] at this
        exact absurd this (by simp)
      | some P =>
        obtain ⟨h1, h2⟩ := (handleJoinQueue_new_room s o conn user hq hr _).2 ⟨P, hm, rfl⟩
        exact ⟨_, h1, h2⟩
  · intro kv h1 h2
    obtain ⟨P, hP, hkv⟩ := (handleJoinQueue_new_room s o conn user hq hr kv).1 ⟨h1, h2⟩
    obtain ⟨l1, l2, hl, hel, _⟩ := scanQueue_some s (s.users user) P hP
    subst hkv
    have hmem : ((scanQueue s (s.users user)).bestMatchID, P) ∈ s.queue := by rw [hl]; simp
    exact ⟨⟨(scanQueue s (s.users user)).bestMatchID, hmem⟩, (helig _).1 hel⟩

theorem C2_match_iff_reciprocal_witness :
    ((∃ kv ∈ (handleJoinQueue (demoQueue [entryA]) (demoOracle 7) (some 101) 1).1.rooms,
        kv ∉ (demoQueue [entryA]).rooms) ↔
      ∃ e ∈ (demoQueue [entryA]).queue,
        ((demoQueue [entryA]).users e.2.User).NativeLanguage =
          ((demoQueue [entryA]).users 1).TargetLanguage ∧
        ((demoQueue [entryA]).users e.2.User).TargetLanguage =
          ((demoQueue [entryA]).users 1).NativeLanguage) ∧
    (∀ kv ∈ (handleJoinQueue (demoQueue [entryA]) (demoOracle 7) (some 101) 1).1.rooms,
      kv ∉ (demoQueue [entryA]).rooms →
      (∃ id, (id, kv.2.User2) ∈ (demoQueue [entryA]).queue) ∧
      ((demoQueue [entryA]).users kv.2.User2.User).NativeLanguage =
        ((demoQueue [entryA]).users 1).TargetLanguage ∧
      ((demoQueue [entryA]).users kv.2.User2.User).TargetLanguage =
        ((demoQueue [entryA]).users 1).NativeLanguage) :=
  C2_match_iff_reciprocal (demoQueue [entryA]) (demoOracle 7) (some 101) 1
    (by unfold inQueue; decide) (by unfold inSomeRoom; decide)

/-- C3: whenever handleJoinQueue matches, the score of the chosen partner is at least
the score of every eligible entry of the queue, whatever the order of the queue; and
an eligible entry whose score is above that of every other eligible entry is the one
matched (so with P1 sharing no interest and P2 sharing two, P2 is matched, not P1). -/
theorem C3_highest_score_wins (s : State) (o : Oracle) (conn : Option Conn) (user : UserPtr)
    (hq : ¬ inQueue s (s.users user).ID) (hr : ¬ inSomeRoom s (s.users user).ID) :
    (∀ kv ∈ (handleJoinQueue s o conn user).1.rooms, kv ∉ s.rooms →
      ∀ e ∈ s.queue, eligible (s.users user) (s.users e.2.User) = true →
        matchScore (s.users user) (s.users e.2.User) ≤
          matchScore (s.users user) (s.users kv.2.User2.User)) ∧
    (∀ P2 ∈ s.queue, eligible (s.users user) (s.users P2.2.User) = true →
      (∀ e ∈ s.queue, eligible (s.users user) (s.users e.2.User) = true → e ≠ P2 →
        matchScore (s.users user) (s.users e.2.User) <
          matchScore (s.users user) (s.users P2.2.User)) →
      (handleJoinQueue s o conn user).1.rooms =
        mapSet s.rooms (newRoomID o) (joinRoom o conn user P2.2)) := by
  constructor
  · intro kv h1 h2 e he hel
    obtain ⟨P, hP, hkv⟩ := (handleJoinQueue_new_room s o conn user hq hr kv).1 ⟨h1, h2⟩
    obtain ⟨_, _, _, _, _, hmax, _⟩ := scanQueue_some s (s.users user) P hP
    subst hkv
    exact hmax e he hel
  · intro P2 hP2 hel hbest
    cases hm : (scanQueue s (s.users user)).bestMatch with
    | none =>
      have := (scanQueue_none_iff s (s.users user)).1 hm P2 hP2
      rw [hel] at this
      exact absurd this (by simp)
    | some P =>
      obtain ⟨l1, l2, hl, helP, _, hmax, _⟩ := scanQueue_some s (s.users user) P hm
      have hmem : ((scanQueue s (s.users user)).bestMatchID, P) ∈ s.queue := by
        rw [hl]; simp
      have hPP : ((scanQueue s (s.users user)).bestMatchID, P) = P2 := by
        by_contra hne
        have h1 := hbest _ hmem helP hne
        have h2 := hmax P2 hP2 hel
        exact absurd (Nat.lt_of_lt_of_le h1 h2) (Nat.lt_irrefl _)
      rw [handleJoinQueue_match s o conn user P hq hr hm, ← hPP]
      rfl

theorem C3_highest_score_wins_witness :
    matchScore (demoUsers 1) (demoUsers 2) = 1 ∧ matchScore (demoUsers 1) (demoUsers 3) = 3 ∧
    (handleJoinQueue (demoQueue [entryP1, entryP2]) (demoOracle 7) (some 101) 1).1.rooms =
      mapSet [] (newRoomID (demoOracle 7)) (joinRoom (demoOracle 7) (some 101) 1 entryP2.2) ∧
    (handleJoinQueue (demoQueue [entryP2, entryP1]) (demoOracle 7) (some 101) 1).1.rooms =
      mapSet [] (newRoomID (demoOracle 7)) (joinRoom (demoOracle 7) (some 101) 1 entryP2.2) :=
  ⟨by decide, by decide,
   (C3_highest_score_wins (demoQueue [entryP1, entryP2]) (demoOracle 7) (some 101) 1
      (by unfold inQueue; decide) (by unfold inSomeRoom; decide)).2 entryP2
      (by decide) (by decide) (by decide),
   (C3_highest_score_wins (demoQueue [entryP2, entryP1]) (demoOracle 7) (some 101) 1
      (by unfold inQueue; decide) (by unfold inSomeRoom; decide)).2 entryP2
      (by decide) (by decide) (by decide)⟩

/-- The state in which A, enqueued at time 5, is visited before C, enqueued at time 3,
is reachable: C joins, A joins, and the queue map is visited in the other order. -/
theorem demoQueue_A_C_reachable : Reachable (demoQueue [entryA, entryC]) :=
  Reachable.reorder
    (step (step (initState demoUsers)
      (Event.message 106 6 (demoOracle 3) Inbound.join_queue)).1
      (Event.message 100 0 (demoOracle 5) Inbound.join_queue)).1
    [entryA, entryC] []
    (Reachable.step _ _ (Reachable.step _ _ (Reachable.init demoUsers)))
    (List.Perm.swap _ _ _) (List.Perm.refl _)

/-- C4 (evaluation at the failing input): A and C are both eligible for B with the
same score 2, C was enqueued at time 3 and A at time 5; when the queue is visited with
A first, handleJoinQueue puts B in a room with A, the later entry, and C stays queued;
visited with C first, it picks C. -/
theorem C4_tie_goes_to_first_visited :
    Reachable (demoQueue [entryA, entryC]) ∧
    eligible (demoUsers 1) (demoUsers 0) = true ∧ eligible (demoUsers 1) (demoUsers 6) = true ∧
    matchScore (demoUsers 1) (demoUsers 0) = 2 ∧ matchScore (demoUsers 1) (demoUsers 6) = 2 ∧
    entryC.2.JoinedAt < entryA.2.JoinedAt ∧
    (handleJoinQueue (demoQueue [entryA, entryC]) (demoOracle 7) (some 101) 1).1.rooms =
      [(newRoomID (demoOracle 7), joinRoom (demoOracle 7) (some 101) 1 entryA.2)] ∧
    (handleJoinQueue (demoQueue [entryA, entryC]) (demoOracle 7) (some 101) 1).1.queue =
      [entryC] ∧
    (handleJoinQueue (demoQueue [entryC, entryA]) (demoOracle 7) (some 101) 1).1.rooms =
      [(newRoomID (demoOracle 7), joinRoom (demoOracle 7) (some 101) 1 entryC.2)] :=
  ⟨demoQueue_A_C_reachable, by decide, by decide, by decide, by decide, by decide,
   by decide, by decide, by decide⟩

/-! ## The score as a count -/

theorem inner_score_count (ui : String) (ps : List String) (n : Nat) :
    ps.foldl (fun score pi => if ui = pi then score + 1 else score) n =
      n + (ps.filter (fun pi => ui == pi)).length := by
  induction ps generalizing n with
  | nil => simp
  | cons a l ih =>
    simp only [List.foldl_cons, List.filter_cons]
    by_cases h : ui = a
    · subst h
      simp only [if_true, beq_self_eq_true, ih, List.length_cons]
      omega
    · simp [h, ih]

theorem equalPairs_cons (a : String) (us ps : List String) :
    equalPairs (a :: us) ps = (ps.filter (fun pi => a == pi)).length + equalPairs us ps := by
  unfold equalPairs List.product
  rw [List.flatMap_cons, List.filter_append, List.length_append, List.filter_map,
    List.length_map]
  rfl

theorem outer_score_count (us ps : List String) (n : Nat) :
    us.foldl (fun score ui => ps.foldl
      (fun score pi => if ui = pi then score + 1 else score) score) n =
      n + equalPairs us ps := by
  induction us generalizing n with
  | nil => simp [equalPairs]
  | cons a l ih =>
    simp only [List.foldl_cons]
    rw [ih, inner_score_count, equalPairs_cons, Nat.add_assoc]

theorem equalPairs_nodup (us ps : List String) (hu : us.Nodup) (hp : ps.Nodup) :
    equalPairs us ps = sharedCount us ps := by
  induction us with
  | nil => simp [equalPairs, sharedCount]
  | cons a l ih =>
    have hl : l.Nodup := (List.nodup_cons.1 hu).2
    have ha : a ∉ l := (List.nodup_cons.1 hu).1
    rw [equalPairs_cons, ih hl]
    unfold sharedCount
    by_cases hmem : a ∈ ps
    · have h1 : (ps.filter (fun pi => a == pi)).length = 1 := by
        have := List.count_eq_one_of_mem hp hmem
        rw [List.count, List.countP_eq_length_filter] at this
        rw [← this]
        congr 1
        apply List.filter_congr
        intro x _
        simp [eq_comm]
      rw [h1, List.toFinset_cons, Finset.insert_inter_of_mem (by simpa using hmem),
        Finset.card_insert_of_not_mem (by simp [ha]), Nat.add_comm]
    · have h0 : (ps.filter (fun pi => a == pi)).length = 0 := by
        rw [List.length_eq_zero, List.filter_eq_nil_iff]
        intro x hx hax
        have : a = x := by simpa using hax
        exact hmem (this ▸ hx)
      rw [h0, List.toFinset_cons, Finset.insert_inter_of_not_mem (by simpa using hmem),
        Nat.zero_add]

/-- C5 (as the claim states it, refuted): X lists the interest x twice and Y lists it
once; Y is eligible for X and the scan gives Y the score 3, while 1 plus the number of
distinct strings in both lists is 2. -/
theorem C5_repeated_interest_counts_twice :
    eligible (demoUsers 4) (demoUsers 5) = true ∧
    (scanQueue (demoQueue [("y", { User := 5, Conn := some 105, JoinedAt := 1 })])
      (demoUsers 4)).bestScore = 3 ∧
    matchScore (demoUsers 4) (demoUsers 5) = 3 ∧
    1 + sharedCount (demoUsers 4).Interests (demoUsers 5).Interests = 2 ∧
    matchScore (demoUsers 4) (demoUsers 5) ≠
      1 + sharedCount (demoUsers 4).Interests (demoUsers 5).Interests := by
  refine ⟨by decide, by decide, by decide, ?_, ?_⟩ <;> decide

/-- The score of an entry is 1 plus the number of pairs, one interest of the sender and
one of the entry, that hold the same string. -/
theorem matchScore_eq_equalPairs (user partner : User) :
    matchScore user partner = 1 + equalPairs user.Interests partner.Interests :=
  outer_score_count user.Interests partner.Interests 1

/-- C5 (amended): for every sender and every entry whose interest lists do not repeat a
string, the score handleJoinQueue computes for the entry is 1 plus the number of
distinct strings that occur in both interest lists. -/
theorem C5_score_of_repeat_free_lists (user partner : User)
    (hu : user.Interests.Nodup) (hp : partner.Interests.Nodup) :
    matchScore user partner = 1 + sharedCount user.Interests partner.Interests := by
  rw [matchScore_eq_equalPairs, equalPairs_nodup _ _ hu hp]

theorem C5_score_of_repeat_free_lists_witness :
    matchScore (demoUsers 1) (demoUsers 0) =
      1 + sharedCount (demoUsers 1).Interests (demoUsers 0).Interests :=
  C5_score_of_repeat_free_lists (demoUsers 1) (demoUsers 0) (by decide) (by decide)

/-- C6: when handleJoinQueue, run for a sender S that is neither queued nor in a room,
ends its scan with the queued partner P, then afterwards the queue is the old queue
without the key under which P waited (in a reachable state that key is the id of P):
no entry is left under that key, S has no entry, every other key maps to what it
mapped to before, and the room map holds a room whose first member is the entry of S
and whose second member is P. -/
theorem C6_match_frame (s : State) (o : Oracle) (conn : Option Conn) (user : UserPtr)
    (P : QueueEntry)
    (hq : ¬ inQueue s (s.users user).ID) (hr : ¬ inSomeRoom s (s.users user).ID)
    (hm : (scanQueue s (s.users user)).bestMatch = some P) :
    ((scanQueue s (s.users user)).bestMatchID, P) ∈ s.queue ∧
    (Reachable s → (scanQueue s (s.users user)).bestMatchID = (s.users P.User).ID) ∧
    (handleJoinQueue s o conn user).1.queue =
      mapDelete s.queue (scanQueue s (s.users user)).bestMatchID ∧
    (∀ e ∈ (handleJoinQueue s o conn user).1.queue,
      e.1 ≠ (scanQueue s (s.users user)).bestMatchID) ∧
    ¬ inQueue (handleJoinQueue s o conn user).1 (s.users user).ID ∧
    (∀ k1, k1 ≠ (scanQueue s (s.users user)).bestMatchID →
      mapGet (handleJoinQueue s o conn user).1.queue k1 = mapGet s.queue k1) ∧
    (∀ e ∈ s.queue, e.1 ≠ (scanQueue s (s.users user)).bestMatchID →
      e ∈ (handleJoinQueue s o conn user).1.queue) ∧
    (∃ kv ∈ (handleJoinQueue s o conn user).1.rooms,
      kv.2.User1 = joinEntry o conn user ∧ kv.2.User1.User = user ∧ kv.2.User2 = P) := by
  obtain ⟨l1, l2, hl, _⟩ := scanQueue_some s (s.users user) P hm
  have hmem : ((scanQueue s (s.users user)).bestMatchID, P) ∈ s.queue := by rw [hl]; simp
  have hres : (handleJoinQueue s o conn user).1.queue =
      mapDelete s.queue (scanQueue s (s.users user)).bestMatchID := by
    rw [handleJoinQueue_match s o conn user P hq hr hm]
  refine ⟨hmem, ?_, hres, ?_, ?_, ?_, ?_, ?_⟩
  · intro hreach
    exact ((Inv_of_Reachable s hreach).key _ hmem).symm
  · intro e he
    rw [hres] at he
    exact ((mem_mapDelete _ _ e).1 he).2
  · intro hin
    obtain ⟨e, he, hk⟩ := (mapGet_isSome_iff _ _).1 hin
    rw [hres] at he
    exact hq ((mapGet_isSome_iff _ _).2 ⟨e, ((mem_mapDelete _ _ e).1 he).1, hk⟩)
  · intro k1 hk1
    rw [hres]
    exact mapGet_mapDelete_ne _ _ _ hk1
  · intro e he hk
    rw [hres]
    exact (mem_mapDelete _ _ e).2 ⟨he, hk⟩
  · refine ⟨(newRoomID o, joinRoom o conn user P), ?_, rfl, rfl, rfl⟩
    rw [handleJoinQueue_match s o conn user P hq hr hm]
    exact (mem_mapSet _ _ _ _).2 (Or.inr rfl)

theorem C6_match_frame_witness :
    (handleJoinQueue (demoQueue [entryP1, entryA]) (demoOracle 7) (some 101) 1).1.queue =
      mapDelete (demoQueue [entryP1, entryA]).queue
        (scanQueue (demoQueue [entryP1, entryA]) (demoUsers 1)).bestMatchID ∧
    (scanQueue (demoQueue [entryP1, entryA]) (demoUsers 1)).bestMatchID = "a" ∧
    (handleJoinQueue (demoQueue [entryP1, entryA]) (demoOracle 7) (some 101) 1).1.queue =
      [entryP1] :=
  ⟨(C6_match_frame (demoQueue [entryP1, entryA]) (demoOracle 7) (some 101) 1 entryA.2
      (by unfold inQueue; decide) (by unfold inSomeRoom; decide) (by decide)).2.2.1,
   by decide, by decide⟩

/-- The state in which only A waits is reachable: A sends join_queue. -/
theorem demoQueue_A_reachable : Reachable (demoQueue [entryA]) :=
  Reachable.step (initState demoUsers)
    (Event.message 100 0 (demoOracle 5) Inbound.join_queue) (Reachable.init demoUsers)

theorem mem_inner_common (ui : String) (ps acc : List String) (x : String) :
    x ∈ ps.foldl (fun acc pi => if ui = pi then acc ++ [ui] else acc) acc ↔
      x ∈ acc ∨ (x = ui ∧ ui ∈ ps) := by
  induction ps generalizing acc with
  | nil => simp
  | cons a l ih =>
    simp only [List.foldl_cons]
    by_cases h : ui = a
    · subst h
      simp only [if_true, ih, List.mem_append, List.mem_singleton, List.mem_cons, true_or,
        and_true]
      tauto
    · simp only [h, if_false, ih, List.mem_cons, false_or]

theorem mem_outer_common (us ps acc : List String) (x : String) :
    x ∈ us.foldl (fun acc ui => ps.foldl
      (fun acc pi => if ui = pi then acc ++ [ui] else acc) acc) acc ↔
      x ∈ acc ∨ (x ∈ us ∧ x ∈ ps) := by
  induction us generalizing acc with
  | nil => simp
  | cons a l ih =>
    simp only [List.foldl_cons, ih, mem_inner_common, List.mem_cons]
    constructor
    · rintro ((h | ⟨h1, h2⟩) | ⟨h1, h2⟩)
      · exact Or.inl h
      · exact Or.inr ⟨Or.inl h1, h1 ▸ h2⟩
      · exact Or.inr ⟨Or.inr h1, h2⟩
    · rintro (h | ⟨h1 | h1, h2⟩)
      · exact Or.inl (Or.inl h)
      · exact Or.inl (Or.inr ⟨h1, h1 ▸ h2⟩)
      · exact Or.inr ⟨h1, h2⟩

theorem mem_commonInterests (user partner : User) (x : String) :
    x ∈ commonInterests user partner ↔ x ∈ user.Interests ∧ x ∈ partner.Interests := by
  unfold commonInterests
  rw [mem_outer_common]
  simp

/-- C7: in a reachable state, when handleJoinQueue, run over connection c for a sender
that is neither queued nor in a room, ends its scan with the queued partner P, it
performs exactly two sends, both of type match_found: the first over c, naming the
alias, native language and country of P, the second over the connection stored in the
entry of P, naming those of the sender; both carry the id of the new room and the same
list of common interests, and a string is in that list exactly when it is in both
interest lists.  For interests music, hiking queued and music, travel joining, the
list is music alone. -/
theorem C7_two_match_found (s : State) (o : Oracle) (c : Conn) (user : UserPtr)
    (P : QueueEntry) (hreach : Reachable s)
    (hq : ¬ inQueue s (s.users user).ID) (hr : ¬ inSomeRoom s (s.users user).ID)
    (hm : (scanQueue s (s.users user)).bestMatch = some P) :
    (∃ pc, P.Conn = some pc ∧
      (handleJoinQueue s o (some c) user).2 =
        [Effect.send c
          { MsgType := "match_found",
            Payload := Payload.matchFound
              { RoomID := newRoomID o, PartnerID := (s.users P.User).AnonymousID,
                PartnerLang := (s.users P.User).NativeLanguage,
                PartnerCountry := (s.users P.User).Country,
                CommonInterests := commonInterests (s.users user) (s.users P.User) } },
         Effect.send pc
          { MsgType := "match_found",
            Payload := Payload.matchFound
              { RoomID := newRoomID o, PartnerID := (s.users user).AnonymousID,
                PartnerLang := (s.users user).NativeLanguage,
                PartnerCountry := (s.users user).Country,
                CommonInterests := commonInterests (s.users user) (s.users P.User) } }]) ∧
    ((newRoomID o, joinRoom o (some c) user P) ∈ (handleJoinQueue s o (some c) user).1.rooms) ∧
    (∀ x, x ∈ commonInterests (s.users user) (s.users P.User) ↔
      x ∈ (s.users user).Interests ∧ x ∈ (s.users P.User).Interests) ∧
    (∀ a b : User, a.Interests = ["music", "hiking"] → b.Interests = ["music", "travel"] →
      commonInterests b a = ["music"]) := by
  obtain ⟨l1, l2, hl, _⟩ := scanQueue_some s (s.users user) P hm
  have hmem : ((scanQueue s (s.users user)).bestMatchID, P) ∈ s.queue := by rw [hl]; simp
  have hconn := (Inv_of_Reachable s hreach).qconn _ hmem
  obtain ⟨pc, hpc⟩ := Option.isSome_iff_exists.1 hconn
  have hpc1 : P.Conn = some pc := hpc
  refine ⟨⟨pc, hpc1, ?_⟩, ?_, mem_commonInterests _ _, ?_⟩
  · rw [handleJoinQueue_match s o (some c) user P hq hr hm, hpc1]
    rfl
  · rw [handleJoinQueue_match s o (some c) user P hq hr hm]
    exact (mem_mapSet _ _ _ _).2 (Or.inr rfl)
  · intro a b ha hb
    unfold commonInterests
    rw [ha, hb]
    decide

theorem C7_two_match_found_witness :
    (handleJoinQueue (demoQueue [entryA]) (demoOracle 7) (some 101) 1).2 =
      [Effect.send 101
        { MsgType := "match_found",
          Payload := Payload.matchFound
            { RoomID := "room-01234567", PartnerID := "NX-a", PartnerLang := "es",
              PartnerCountry := "ES", CommonInterests := ["music"] } },
       Effect.send 100
        { MsgType := "match_found",
          Payload := Payload.matchFound
            { RoomID := "room-01234567", PartnerID := "NX-b", PartnerLang := "en",
              PartnerCountry := "US", CommonInterests := ["music"] } }] ∧
    ∃ pc, entryA.2.Conn = some pc ∧
      (handleJoinQueue (demoQueue [entryA]) (demoOracle 7) (some 101) 1).2 =
        [Effect.send 101
          { MsgType := "match_found",
            Payload := Payload.matchFound
              { RoomID := newRoomID (demoOracle 7),
                PartnerID := ((demoQueue [entryA]).users entryA.2.User).AnonymousID,
                PartnerLang := ((demoQueue [entryA]).users entryA.2.User).NativeLanguage,
                PartnerCountry := ((demoQueue [entryA]).users entryA.2.User).Country,
                CommonInterests := commonInterests ((demoQueue [entryA]).users 1)
                  ((demoQueue [entryA]).users entryA.2.User) } },
         Effect.send pc
          { MsgType := "match_found",
            Payload := Payload.matchFound
              { RoomID := newRoomID (demoOracle 7),
                PartnerID := ((demoQueue [entryA]).users 1).AnonymousID,
                PartnerLang := ((demoQueue [entryA]).users 1).NativeLanguage,
                PartnerCountry := ((demoQueue [entryA]).users 1).Country,
                CommonInterests := commonInterests ((demoQueue [entryA]).users 1)
                  ((demoQueue [entryA]).users entryA.2.User) } }] :=
  ⟨by decide,
   (C7_two_match_found (demoQueue [entryA]) (demoOracle 7) 101 1 entryA.2
      demoQueue_A_reachable (by unfold inQueue; decide) (by unfold inSomeRoom; decide)
      (by decide)).1⟩

/-- C8: when the sender already has a queue entry, or is a member of a room,
handleJoinQueue returns the state unchanged and performs exactly one effect, a send
over the connection of the sender: already_in_queue when the sender is queued,
already_in_room when the sender is in a room and not queued, which in a reachable
state is whenever the sender is in a room.  Nothing is closed and no room is made. -/
theorem C8_rejoin_is_refused (s : State) (o : Oracle) (c : Conn) (user : UserPtr) :
    (inQueue s (s.users user).ID →
      handleJoinQueue s o (some c) user =
        (s, [Effect.send c { MsgType := "already_in_queue", Payload := Payload.omitted }])) ∧
    (inSomeRoom s (s.users user).ID → ¬ inQueue s (s.users user).ID →
      handleJoinQueue s o (some c) user =
        (s, [Effect.send c { MsgType := "already_in_room", Payload := Payload.omitted }])) ∧
    (Reachable s → inSomeRoom s (s.users user).ID →
      handleJoinQueue s o (some c) user =
        (s, [Effect.send c { MsgType := "already_in_room", Payload := Payload.omitted }])) := by
  refine ⟨?_, ?_, ?_⟩
  · intro h
    rw [handleJoinQueue_queued s o _ user h]; rfl
  · intro hr hq
    rw [handleJoinQueue_inRoom s o _ user hq hr]; rfl
  · intro hreach hr
    have hq : ¬ inQueue s (s.users user).ID := by
      intro hq
      obtain ⟨r, hmem, hm⟩ := hr
      obtain ⟨kv, hkv, hk⟩ := (mapGet_isSome_iff s.queue _).1 hq
      have := (Inv_of_Reachable s hreach).disj kv hkv r hmem
      rw [hk, hm] at this
      exact absurd this (by simp)
    rw [handleJoinQueue_inRoom s o _ user hq hr]; rfl

theorem C8_rejoin_is_refused_witness :
    handleJoinQueue (demoQueue [entryA]) (demoOracle 9) (some 100) 0 =
      (demoQueue [entryA],
        [Effect.send 100 { MsgType := "already_in_queue", Payload := Payload.omitted }]) ∧
    handleJoinQueue demoMatched (demoOracle 9) (some 101) 1 =
      (demoMatched,
        [Effect.send 101 { MsgType := "already_in_room", Payload := Payload.omitted }]) ∧
    handleJoinQueue demoMatched (demoOracle 9) (some 100) 0 =
      (demoMatched,
        [Effect.send 100 { MsgType := "already_in_room", Payload := Payload.omitted }]) :=
  ⟨(C8_rejoin_is_refused (demoQueue [entryA]) (demoOracle 9) 100 0).1
      (by unfold inQueue; decide),
   (C8_rejoin_is_refused demoMatched (demoOracle 9) 101 1).2.1
      (by unfold inSomeRoom; decide) (by unfold inQueue; decide),
   (C8_rejoin_is_refused demoMatched (demoOracle 9) 100 0).2.2 demoMatched_reachable
      (by unfold inSomeRoom; decide)⟩

/-! ## Leaving a room -/

theorem leaveRoom_absent (s : State) (id : String) (h : ¬ inSomeRoom s id) :
    leaveRoom s id = (s, []) := by
  have : findRoom s id = none := by
    unfold findRoom
    rw [List.find?_eq_none]
    intro kv hkv hm
    exact h ⟨kv, hkv, hm⟩
  unfold leaveRoom
  rw [this]

theorem leaveRoom_present (s : State) (id : String) (hs : Inv s) (kv : String × Room)
    (hkv : kv ∈ s.rooms) (hm : isMember s id kv.2 = true) :
    leaveRoom s id =
      ({ s with rooms := mapDelete s.rooms kv.1 },
       sendJSON (partnerOf s id kv.2).Conn
         { MsgType := "partner_left", Payload := Payload.omitted }) := by
  cases hf : findRoom s id with
  | none =>
    unfold findRoom at hf
    rw [List.find?_eq_none] at hf
    exact absurd hm (hf kv hkv)
  | some kv1 =>
    have h1 : kv1 ∈ s.rooms := List.mem_of_find?_eq_some hf
    have h2 : isMember s id kv1.2 = true := by
      have := List.find?_some hf
      simpa using this
    have heq : kv1 = kv := hs.single kv1 h1 kv hkv id h2 hm
    subst heq
    unfold leaveRoom
    rw [hf]

theorem not_inSomeRoom_leaveRoom (s : State) (id : String) (hs : Inv s) :
    ¬ inSomeRoom (leaveRoom s id).1 id := by
  by_cases h : inSomeRoom s id
  · obtain ⟨kv, hkv, hm⟩ := h
    rw [leaveRoom_present s id hs kv hkv hm]
    rintro ⟨r, hr, hmr⟩
    obtain ⟨hr1, hr2⟩ := (mem_mapDelete _ _ r).1 hr
    have : r = kv := hs.single r hr1 kv hkv id hmr hm
    exact hr2 (by rw [this])
  · rw [leaveRoom_absent s id h]; exact h

/-- C9: in a reachable state in which A is a member of a room whose other member is
the entry eB of B, the disconnect cleanup of a connection of A performs exactly one
send, a partner_left over the connection stored in eB, and then closes the connection
of A; afterwards no room has A as a member, A has no queue entry and the connection
registry has no entry for A. -/
theorem C9_disconnect_notifies_partner_once (s : State) (conn : Conn) (user : UserPtr)
    (eB : QueueEntry) (hreach : Reachable s)
    (hshare : sharesRoomWith s (s.users user).ID eB) :
    ∃ bc, eB.Conn = some bc ∧
      (handleMessages_cleanup s conn user).2 =
        [Effect.send bc { MsgType := "partner_left", Payload := Payload.omitted },
         Effect.close conn] ∧
      ¬ inSomeRoom (handleMessages_cleanup s conn user).1 (s.users user).ID ∧
      ¬ inQueue (handleMessages_cleanup s conn user).1 (s.users user).ID ∧
      mapGet (handleMessages_cleanup s conn user).1.connections (s.users user).ID = none := by
  have hs := Inv_of_Reachable s hreach
  obtain ⟨kv, hkv, hAB⟩ := hshare
  have hs2 : Inv { s with connections := mapDelete s.connections (s.users user).ID,
                          queue := mapDelete s.queue (s.users user).ID } :=
    Inv_of_Shrinks s _
      ⟨fun _ => rfl, fun e he => ((mem_mapDelete _ _ e).1 he).1, fun _ h => h⟩ hs
  have hm : isMember s (s.users user).ID kv.2 = true := by
    unfold isMember
    rcases hAB with ⟨h, _⟩ | ⟨h, _⟩
    · simp [h]
    · simp [h]
  have hpartner : partnerOf s (s.users user).ID kv.2 = eB := by
    unfold partnerOf
    rcases hAB with ⟨h, he⟩ | ⟨h, he⟩
    · rw [if_pos h]; exact he
    · have hne : (s.users kv.2.User1.User).ID ≠ (s.users user).ID := by
        rw [← h]; exact hs.distinct kv hkv
      rw [if_neg hne]; exact he
  have hconn : eB.Conn.isSome = true := by
    rcases hAB with ⟨_, he⟩ | ⟨_, he⟩
    · rw [← he]; exact (hs.rconn kv hkv).2
    · rw [← he]; exact (hs.rconn kv hkv).1
  obtain ⟨bc, hbc⟩ := Option.isSome_iff_exists.1 hconn
  have hleave := leaveRoom_present
    { s with connections := mapDelete s.connections (s.users user).ID,
             queue := mapDelete s.queue (s.users user).ID } (s.users user).ID hs2 kv hkv hm
  have hpartner2 : partnerOf
      { s with connections := mapDelete s.connections (s.users user).ID,
               queue := mapDelete s.queue (s.users user).ID } (s.users user).ID kv.2 = eB :=
    hpartner
  rw [hpartner2, hbc] at hleave
  have hnot := not_inSomeRoom_leaveRoom
    { s with connections := mapDelete s.connections (s.users user).ID,
             queue := mapDelete s.queue (s.users user).ID } (s.users user).ID hs2
  refine ⟨bc, hbc, ?_, ?_, ?_, ?_⟩
  · unfold handleMessages_cleanup
    simp only [hleave]
    rfl
  · exact hnot
  · unfold handleMessages_cleanup
    simp only [hleave]
    intro hin
    obtain ⟨e, he, hk⟩ := (mapGet_isSome_iff _ _).1 hin
    exact ((mem_mapDelete _ _ e).1 he).2 hk
  · unfold handleMessages_cleanup
    simp only [hleave]
    exact mapGet_mapDelete_self _ _

theorem C9_disconnect_notifies_partner_once_witness :
    ∃ bc, (joinEntry (demoOracle 7) (some 101) 1).Conn = some bc ∧
      (handleMessages_cleanup demoMatched 100 0).2 =
        [Effect.send bc { MsgType := "partner_left", Payload := Payload.omitted },
         Effect.close 100] ∧
      ¬ inSomeRoom (handleMessages_cleanup demoMatched 100 0).1 (demoMatched.users 0).ID ∧
      ¬ inQueue (handleMessages_cleanup demoMatched 100 0).1 (demoMatched.users 0).ID ∧
      mapGet (handleMessages_cleanup demoMatched 100 0).1.connections
        (demoMatched.users 0).ID = none :=
  C9_disconnect_notifies_partner_once demoMatched 100 0 (joinEntry (demoOracle 7) (some 101) 1)
    demoMatched_reachable (by unfold sharesRoomWith; decide)

/-- C10: in every reachable state, for every identity A, a second leave_room right
after a first one returns the state of the first unchanged, queue and room map
included, and performs no effect: there is no second partner_left. -/
theorem C10_leave_room_twice (s : State) (user : UserPtr) (hreach : Reachable s) :
    (handleLeaveRoom (handleLeaveRoom s user).1 user).1 = (handleLeaveRoom s user).1 ∧
    (handleLeaveRoom (handleLeaveRoom s user).1 user).1.queue =
      (handleLeaveRoom s user).1.queue ∧
    (handleLeaveRoom (handleLeaveRoom s user).1 user).1.rooms =
      (handleLeaveRoom s user).1.rooms ∧
    (handleLeaveRoom (handleLeaveRoom s user).1 user).2 = [] := by
  have hs := Inv_of_Reachable s hreach
  have hid : ((handleLeaveRoom s user).1.users user).ID = (s.users user).ID :=
    (Shrinks_leaveRoom s (s.users user).ID).1 user
  have hnot : ¬ inSomeRoom (handleLeaveRoom s user).1 (s.users user).ID :=
    not_inSomeRoom_leaveRoom s (s.users user).ID hs
  have h2 : handleLeaveRoom (handleLeaveRoom s user).1 user = ((handleLeaveRoom s user).1, []) := by
    have : handleLeaveRoom (handleLeaveRoom s user).1 user =
        leaveRoom (handleLeaveRoom s user).1 (s.users user).ID := by
      rw [← hid]; rfl
    rw [this, leaveRoom_absent _ _ hnot]
  rw [h2]
  exact ⟨rfl, rfl, rfl, rfl⟩

theorem C10_leave_room_twice_witness :
    (handleLeaveRoom (handleLeaveRoom demoMatched 0).1 0).1 = (handleLeaveRoom demoMatched 0).1 ∧
    (handleLeaveRoom (handleLeaveRoom demoMatched 0).1 0).1.queue =
      (handleLeaveRoom demoMatched 0).1.queue ∧
    (handleLeaveRoom (handleLeaveRoom demoMatched 0).1 0).1.rooms =
      (handleLeaveRoom demoMatched 0).1.rooms ∧
    (handleLeaveRoom (handleLeaveRoom demoMatched 0).1 0).2 = [] :=
  C10_leave_room_twice demoMatched 0 demoMatched_reachable

/-! ## The later claims -/

theorem mapDelete_idem {β : Type} (m : List (String × β)) (k : String) :
    mapDelete (mapDelete m k) k = mapDelete m k := by
  simp [mapDelete, List.filter_filter]

theorem demoConnected_reachable : Reachable demoConnected :=
  Reachable.step _ _ (Reachable.init demoUsers)

/-- C11 (as the claim states it, refuted): A has the live connection 100 and sends
leave_queue twice; the second call again sends queue_left over connection 100. -/
theorem C11_second_leave_queue_sends_again :
    Reachable demoConnected ∧
    mapGet demoConnected.connections (demoConnected.users 0).ID = some 100 ∧
    (handleLeaveQueue (handleLeaveQueue demoConnected 0).1 0).2 =
      [Effect.send 100 { MsgType := "queue_left", Payload := Payload.omitted }] ∧
    (handleLeaveQueue (handleLeaveQueue demoConnected 0).1 0).2 ≠ [] :=
  ⟨demoConnected_reachable, by decide, by decide, by decide⟩

/-- C11 (amended): for every identity A whose id has the connection c in the registry,
a second leave_queue right after a first one returns the state of the first unchanged,
queue included, and, like the first, performs exactly one effect: a queue_left sent
over c. -/
theorem C11_leave_queue_twice (s : State) (user : UserPtr) (c : Conn)
    (hc : mapGet s.connections (s.users user).ID = some c) :
    (handleLeaveQueue (handleLeaveQueue s user).1 user).1 = (handleLeaveQueue s user).1 ∧
    (handleLeaveQueue (handleLeaveQueue s user).1 user).1.queue =
      (handleLeaveQueue s user).1.queue ∧
    (handleLeaveQueue s user).2 =
      [Effect.send c { MsgType := "queue_left", Payload := Payload.omitted }] ∧
    (handleLeaveQueue (handleLeaveQueue s user).1 user).2 =
      [Effect.send c { MsgType := "queue_left", Payload := Payload.omitted }] := by
  have h1 : (handleLeaveQueue (handleLeaveQueue s user).1 user).1 =
      (handleLeaveQueue s user).1 := by
    simp only [handleLeaveQueue, mapDelete_idem]
  refine ⟨h1, by rw [h1], ?_, ?_⟩
  · simp only [handleLeaveQueue, hc]; rfl
  · simp only [handleLeaveQueue, hc]; rfl

theorem C11_leave_queue_twice_witness :
    (handleLeaveQueue (handleLeaveQueue demoConnected 0).1 0).1 =
      (handleLeaveQueue demoConnected 0).1 ∧
    (handleLeaveQueue (handleLeaveQueue demoConnected 0).1 0).1.queue =
      (handleLeaveQueue demoConnected 0).1.queue ∧
    (handleLeaveQueue demoConnected 0).2 =
      [Effect.send 100 { MsgType := "queue_left", Payload := Payload.omitted }] ∧
    (handleLeaveQueue (handleLeaveQueue demoConnected 0).1 0).2 =
      [Effect.send 100 { MsgType := "queue_left", Payload := Payload.omitted }] :=
  C11_leave_queue_twice demoConnected 0 100 (by decide)

theorem demoSameLang_reachable : Reachable demoSameLang :=
  Reachable.step _ _ (Reachable.step _ _ (Reachable.step _ _ (Reachable.init sameLangUsers)))

/-- C12: in every reachable state, the two members of every room of the room map have
different identity ids; so handleJoinQueue never pairs an identity with itself,
whatever its languages. -/
theorem C12_room_members_differ (s : State) (h : Reachable s) :
    ∀ kv ∈ s.rooms, (s.users kv.2.User1.User).ID ≠ (s.users kv.2.User2.User).ID :=
  (Inv_of_Reachable s h).distinct

theorem C12_room_members_differ_witness :
    (sameLangUsers 0).NativeLanguage = (sameLangUsers 0).TargetLanguage ∧
    demoSameLang.rooms.length = 1 ∧
    ∀ kv ∈ demoSameLang.rooms,
      (demoSameLang.users kv.2.User1.User).ID ≠ (demoSameLang.users kv.2.User2.User).ID :=
  ⟨by decide, by decide, C12_room_members_differ demoSameLang demoSameLang_reachable⟩

theorem findRoom_absent (s : State) (id : String) (h : ¬ inSomeRoom s id) :
    findRoom s id = none := by
  unfold findRoom
  rw [List.find?_eq_none]
  intro kv hkv hm
  exact h ⟨kv, hkv, hm⟩

/-- C14: for every state and every identity that is a member of no room, a chat,
typing, stop_typing, report_user or leave_room event from it, whatever its payload,
returns the state unchanged (queue, room map and report list included) and performs no
effect. -/
theorem C14_not_in_room_is_ignored (s : State) (o : Oracle) (conn : Conn) (user : UserPtr)
    (h : ¬ inSomeRoom s (s.users user).ID) :
    (∀ payload, handleMessages_dispatch s o conn user (Inbound.chat payload) = (s, [])) ∧
    handleMessages_dispatch s o conn user Inbound.typing = (s, []) ∧
    handleMessages_dispatch s o conn user Inbound.stop_typing = (s, []) ∧
    (∀ payload, handleMessages_dispatch s o conn user (Inbound.report_user payload) = (s, [])) ∧
    handleMessages_dispatch s o conn user Inbound.leave_room = (s, []) := by
  have hf := findRoom_absent s _ h
  refine ⟨?_, ?_, ?_, ?_, ?_⟩
  · intro payload
    cases payload with
    | none => rfl
    | some message =>
      simp only [handleMessages_dispatch, handleChat, hf]
      split <;> rfl
  · simp only [handleMessages_dispatch, handleTyping, hf]
  · simp only [handleMessages_dispatch, handleTyping, hf]
  · intro payload
    cases payload with
    | none => rfl
    | some data => simp [handleMessages_dispatch, handleReportUser, hf]
  · exact leaveRoom_absent s _ h

theorem C14_not_in_room_is_ignored_witness :
    handleMessages_dispatch (demoQueue [entryA]) (demoOracle 9) 101 1
      (Inbound.chat (some "hola")) = (demoQueue [entryA], []) ∧
    handleMessages_dispatch (demoQueue [entryA]) (demoOracle 9) 101 1
      (Inbound.report_user (some ("spam", "details"))) = (demoQueue [entryA], []) ∧
    handleMessages_dispatch (demoQueue [entryA]) (demoOracle 9) 101 1 Inbound.leave_room =
      (demoQueue [entryA], []) :=
  ⟨(C14_not_in_room_is_ignored (demoQueue [entryA]) (demoOracle 9) 101 1
      (by unfold inSomeRoom; decide)).1 (some "hola"),
   (C14_not_in_room_is_ignored (demoQueue [entryA]) (demoOracle 9) 101 1
      (by unfold inSomeRoom; decide)).2.2.2.1 (some ("spam", "details")),
   (C14_not_in_room_is_ignored (demoQueue [entryA]) (demoOracle 9) 101 1
      (by unfold inSomeRoom; decide)).2.2.2.2⟩

theorem findRoom_present (s : State) (id : String) (hs : Inv s) (kv : String × Room)
    (hkv : kv ∈ s.rooms) (hm : isMember s id kv.2 = true) : findRoom s id = some kv := by
  cases hf : findRoom s id with
  | none =>
    unfold findRoom at hf
    rw [List.find?_eq_none] at hf
    exact absurd hm (hf kv hkv)
  | some kv1 =>
    have h1 : kv1 ∈ s.rooms := List.mem_of_find?_eq_some hf
    have h2 : isMember s id kv1.2 = true := by
      have := List.find?_some hf
      simpa using this
    rw [hs.single kv1 h1 kv hkv id h2 hm]

theorem demoChatting_reachable : Reachable demoChatting :=
  Reachable.step _ _ (Reachable.step _ _ (Reachable.step _ _ (Reachable.step _ _
    (Reachable.init demoUsers))))

/-- C15 (as the claim states it, refuted): B is in a room with A and both have a
connection in the registry; a frame of type chat_message with the text hola from B
selects no case of the switch: nothing is sent and the state is unchanged. -/
theorem C15_chat_message_tag_is_ignored :
    Reachable demoChatting ∧ inSomeRoom demoChatting (demoChatting.users 1).ID ∧
    handleMessages_switch demoChatting (demoOracle 9) 101 1
      { MsgType := "chat_message", message := some "hola", langs := none,
        interests := none, report := none } = (demoChatting, []) ∧
    (handleMessages_switch demoChatting (demoOracle 9) 101 1
      { MsgType := "chat_message", message := some "hola", langs := none,
        interests := none, report := none }).2.length ≠ 2 :=
  ⟨demoChatting_reachable, by unfold inSomeRoom; decide, rfl, by decide⟩

/-- C15 (amended): in a reachable state, a frame of type chat with a non-empty message
from a sender who is a member of a room and whose id has the connection c in the
registry leaves the state unchanged and performs exactly two effects: a chat sent to
the connection of the other member of the room, carrying the message, the alias of the
sender and the time, and a chat_sent with the same payload sent to c. -/
theorem C15_chat_relays_and_confirms (s : State) (o : Oracle) (conn c : Conn)
    (user : UserPtr) (f : Frame) (text : String) (kv : String × Room)
    (hreach : Reachable s) (htype : f.MsgType = "chat") (hmsg : f.message = some text)
    (htext : text ≠ "") (hkv : kv ∈ s.rooms)
    (hm : isMember s (s.users user).ID kv.2 = true)
    (hc : mapGet s.connections (s.users user).ID = some c) :
    ∃ pc, (partnerOf s (s.users user).ID kv.2).Conn = some pc ∧
      handleMessages_switch s o conn user f =
        (s, [Effect.send pc
              { MsgType := "chat",
                Payload := Payload.chat
                  { Message := text, SenderID := (s.users user).AnonymousID,
                    Timestamp := o.now } },
             Effect.send c
              { MsgType := "chat_sent",
                Payload := Payload.chat
                  { Message := text, SenderID := (s.users user).AnonymousID,
                    Timestamp := o.now } }]) := by
  have hs := Inv_of_Reachable s hreach
  have hf := findRoom_present s _ hs kv hkv hm
  have hconn : (partnerOf s (s.users user).ID kv.2).Conn.isSome = true := by
    unfold partnerOf
    split
    · exact (hs.rconn kv hkv).2
    · exact (hs.rconn kv hkv).1
  obtain ⟨pc, hpc⟩ := Option.isSome_iff_exists.1 hconn
  refine ⟨pc, hpc, ?_⟩
  have hk : frameKind f = Inbound.chat (some text) := by
    unfold frameKind
    rw [htype, hmsg]
    rfl
  unfold handleMessages_switch
  rw [hk]
  simp only [handleMessages_dispatch, handleChat, htext, if_false, hf, hpc, hc]
  rfl

theorem C15_chat_relays_and_confirms_witness :
    ∃ pc, (partnerOf demoChatting (demoChatting.users 1).ID
        (joinRoom (demoOracle 7) (some 101) 1 entryA.2)).Conn = some pc ∧
      handleMessages_switch demoChatting (demoOracle 9) 101 1
        { MsgType := "chat", message := some "hola", langs := none,
          interests := none, report := none } =
        (demoChatting, [Effect.send pc
              { MsgType := "chat",
                Payload := Payload.chat
                  { Message := "hola", SenderID := (demoChatting.users 1).AnonymousID,
                    Timestamp := (demoOracle 9).now } },
             Effect.send 101
              { MsgType := "chat_sent",
                Payload := Payload.chat
                  { Message := "hola", SenderID := (demoChatting.users 1).AnonymousID,
                    Timestamp := (demoOracle 9).now } }]) :=
  C15_chat_relays_and_confirms demoChatting (demoOracle 9) 101 101 1
    { MsgType := "chat", message := some "hola", langs := none,
      interests := none, report := none } "hola"
    (newRoomID (demoOracle 7), joinRoom (demoOracle 7) (some 101) 1 entryA.2)
    demoChatting_reachable rfl rfl (by decide) (by decide) (by decide) (by decide)

/-! ## The keys of the match service -/

theorem split_at_first {α : Type} (x : α) (l1 l2 r1 r2 : List α)
    (h1 : x ∉ l1) (h2 : x ∉ l2) (h : l1 ++ x :: r1 = l2 ++ x :: r2) :
    l1 = l2 ∧ r1 = r2 := by
  induction l1 generalizing l2 with
  | nil =>
    cases l2 with
    | nil => simpa using h
    | cons b l2 =>
      simp only [List.nil_append, List.cons_append, List.cons.injEq] at h
      exact absurd (by rw [h.1]; simp) h2
  | cons a l1 ih =>
    cases l2 with
    | nil =>
      simp only [List.nil_append, List.cons_append, List.cons.injEq] at h
      exact absurd (by rw [← h.1]; simp) h1
    | cons b l2 =>
      simp only [List.cons_append, List.cons.injEq] at h
      obtain ⟨e1, e2⟩ := ih l2 (fun hm => h1 (List.mem_cons_of_mem _ hm))
        (fun hm => h2 (List.mem_cons_of_mem _ hm)) h.2
      exact ⟨by rw [h.1, e1], e2⟩

/-- The key of the match service determines the two languages when the first holds no
colon. -/
theorem queueKey_inj (a b c d : String) (ha : ':' ∉ a.data) (hc : ':' ∉ c.data)
    (h : Services.queueKey a b = Services.queueKey c d) : a = c ∧ b = d := by
  have hd := congrArg String.data h
  simp only [Services.queueKey, String.data_append, List.append_assoc] at hd
  have hd2 := List.append_cancel_left hd
  have hd3 : a.data ++ ':' :: b.data = c.data ++ ':' :: d.data := hd2
  obtain ⟨e1, e2⟩ := split_at_first ':' _ _ _ _ ha hc hd3
  exact ⟨String.ext e1, String.ext e2⟩

theorem mapGet_some_mem {β : Type} (m : List (String × β)) (k : String) (v : β)
    (h : mapGet m k = some v) : (k, v) ∈ m := by
  unfold mapGet at h
  cases hf : m.find? (fun kv => kv.1 == k) with
  | none => rw [hf] at h; simp at h
  | some kv =>
    rw [hf] at h
    have h1 : kv ∈ m := List.mem_of_find?_eq_some hf
    have h2 : kv.1 = k := by simpa using List.find?_some hf
    have h3 : kv.2 = v := by simpa using h
    rw [← h2, ← h3]
    exact h1

theorem zMin_mem (before : Services.MemberOrder) (z : Services.ZSet)
    (m : Nat × Services.MatchRequest) (h : Services.zMin before z = some m) : m ∈ z := by
  induction z generalizing m with
  | nil => simp [Services.zMin] at h
  | cons e rest ih =>
    unfold Services.zMin at h
    cases hr : Services.zMin before rest with
    | none =>
      rw [hr] at h
      simp only [Option.some.injEq] at h
      rw [← h]; simp
    | some m1 =>
      rw [hr] at h
      simp only at h
      split at h
      · simp only [Option.some.injEq] at h
        rw [← h]
        exact List.mem_cons_of_mem _ (ih m1 hr)
      · simp only [Option.some.injEq] at h
        rw [← h]; simp

theorem Filed_AddToQueue (r : Services.Redis) (now : Nat) (req : Services.MatchRequest)
    (h : Services.Filed r) : Services.Filed (Services.AddToQueue r now req) := by
  intro kz hkz e he
  unfold Services.AddToQueue at hkz
  rcases (mem_mapSet _ _ _ kz).1 hkz with ⟨h1, _⟩ | rfl
  · exact h kz h1 e he
  · simp only [Services.zAdd, List.mem_append, List.mem_filter, List.mem_singleton] at he
    rcases he with ⟨he1, _⟩ | rfl
    · cases hg : mapGet r (Services.queueKey req.NativeLanguage req.TargetLanguage) with
      | none => rw [hg] at he1; simp at he1
      | some z =>
        rw [hg] at he1
        exact h _ (mapGet_some_mem _ _ _ hg) e he1
    · rfl

/-- When every waiting request is filed under its own key, the partner that FindMatch
returns is reciprocal to the request as soon as neither the native language of the
partner nor the target language of the request holds a colon. -/
theorem FindMatch_reciprocal_without_colon (before : Services.MemberOrder)
    (r : Services.Redis) (req partner : Services.MatchRequest) (h : Services.Filed r)
    (hf : (Services.FindMatch before r req).2 = some partner)
    (hp : ':' ∉ partner.NativeLanguage.data) (hr : ':' ∉ req.TargetLanguage.data) :
    partner.NativeLanguage = req.TargetLanguage ∧
    partner.TargetLanguage = req.NativeLanguage := by
  unfold Services.FindMatch at hf
  cases hg : mapGet r (Services.queueKey req.TargetLanguage req.NativeLanguage) with
  | none => rw [hg] at hf; simp at hf
  | some z =>
    rw [hg] at hf
    simp only at hf
    cases hz : Services.zMin before z with
    | none => rw [hz] at hf; simp at hf
    | some m =>
      rw [hz] at hf
      have hm : m.2 = partner := by simpa using hf
      have hkey := h _ (mapGet_some_mem _ _ _ hg) m (zMin_mem before z m hz)
      rw [hm] at hkey
      exact queueKey_inj _ _ _ _ hp hr hkey.symm

/-- C16 (evaluation at the failing input): on a handler with nothing queued,
user-aaaa sends join_queue with native and target language both en; handleJoinQueue
enqueues the request under queue:en:en and attemptMatch pops that same request from
the same key, so the room it stores has user-aaaa as User1 and as User2.  The same
happens when user-aaaa sends join_queue for en to es and then for es to en.  This is so
whatever the order of Redis among members of equal score. -/
theorem C16_request_matched_with_itself (before : Services.MemberOrder) :
    (Controllers.handleJoinQueue_thenMatch before demoIdle 10 "user-aaaa"
      (some ("en", "en"))).1.rooms =
      [("room_user-aaaa_user-aaaa",
        { ID := "room_user-aaaa_user-aaaa", User1 := "user-aaaa", User2 := "user-aaaa" })] ∧
    (∃ kv ∈ (Controllers.handleJoinQueue_thenMatch before demoIdle 10 "user-aaaa"
        (some ("en", "en"))).1.rooms, kv.2.User1 = kv.2.User2) ∧
    (Controllers.handleJoinQueue_thenMatch before
      (Controllers.handleJoinQueue_thenMatch before demoIdle 10 "user-aaaa"
        (some ("en", "es"))).1
      11 "user-aaaa" (some ("es", "en"))).1.rooms =
      [("room_user-aaaa_user-aaaa",
        { ID := "room_user-aaaa_user-aaaa", User1 := "user-aaaa", User2 := "user-aaaa" })] := by
  have h1 : (Controllers.handleJoinQueue_thenMatch before demoIdle 10 "user-aaaa"
      (some ("en", "en"))).1.rooms =
      [("room_user-aaaa_user-aaaa",
        { ID := "room_user-aaaa_user-aaaa", User1 := "user-aaaa", User2 := "user-aaaa" })] :=
    rfl
  refine ⟨h1, ?_, rfl⟩
  rw [h1]
  exact ⟨_, List.mem_singleton.2 rfl, rfl⟩

/-- C17 (evaluation at the failing input): the only waiting request was added with
AddToQueue by user-aaaa, native a:b and target c, which files it under queue:a:b:c;
FindMatch for user-bbbb, native b:c and target a, reads the same key queue:a:b:c and
returns that request, although its native language a:b is not the target language a
of the seeker and its target language c is not the native language b:c.  This is so
whatever the order of Redis among members of equal score. -/
theorem C17_colon_in_language_breaks_reciprocity (before : Services.MemberOrder) :
    Services.Filed (Services.AddToQueue [] 10 demoColonRequest) ∧
    Services.queueKey demoColonRequest.NativeLanguage demoColonRequest.TargetLanguage =
      "queue:a:b:c" ∧
    Services.queueKey demoSeeker.TargetLanguage demoSeeker.NativeLanguage = "queue:a:b:c" ∧
    (Services.FindMatch before (Services.AddToQueue [] 10 demoColonRequest) demoSeeker).2 =
      some demoColonRequest ∧
    demoColonRequest.NativeLanguage ≠ demoSeeker.TargetLanguage ∧
    demoColonRequest.TargetLanguage ≠ demoSeeker.NativeLanguage :=
  ⟨Filed_AddToQueue [] 10 demoColonRequest (fun _ hkz => absurd hkz (List.not_mem_nil _)),
   by decide, by decide, rfl, by decide, by decide⟩

/-- C18 (as the claim states it, refuted): A registers connection 100, then the newer
connection 200, which takes the place of 100 in the registry; when the cleanup of
connection 100 has run, the registry has no entry for A. -/
theorem C18_cleanup_unregisters_newer_connection :
    mapGet (handleWebSocket_register (handleWebSocket_register (initState demoUsers)
      100 0).1 200 0).1.connections "a" = some 200 ∧
    mapGet (handleMessages_cleanup (handleWebSocket_register (handleWebSocket_register
      (initState demoUsers) 100 0).1 200 0).1 100 0).1.connections "a" = none ∧
    mapGet (handleMessages_cleanup (handleWebSocket_register (handleWebSocket_register
      (initState demoUsers) 100 0).1 200 0).1 100 0).1.connections "a" ≠ some 200 :=
  ⟨by decide, by decide, by decide⟩

theorem mapGet_mapSet_self {β : Type} (m : List (String × β)) (k : String) (v : β) :
    mapGet (mapSet m k v) k = some v := by
  have h : (mapDelete m k).find? (fun kv => kv.1 == k) = none := by
    rw [List.find?_eq_none]
    intro kv hkv
    simpa using ((mem_mapDelete m k kv).1 hkv).2
  simp [mapGet, mapSet, List.find?_append, h]

/-- C18 (amended): when identity X registers connection c1 and then the newer
connection c2, the registry maps X to c2; when c1 then closes and its cleanup runs, the
registry has no entry for X, in main_dev.go and in ws_handler.go alike: the cleanup
deletes the entry under the id of X whichever connection closed.  The only connection
the cleanup closes is c1. -/
theorem C18_cleanup_deletes_registry_entry (s : State) (h : Controllers.WSHandler)
    (c1 c2 : Conn) (user : UserPtr) (userID : String) :
    mapGet (handleWebSocket_register (handleWebSocket_register s c1 user).1 c2 user).1.connections
      (s.users user).ID = some c2 ∧
    mapGet (handleMessages_cleanup
      (handleWebSocket_register (handleWebSocket_register s c1 user).1 c2 user).1
      c1 user).1.connections (s.users user).ID = none ∧
    (∀ c, Effect.close c ∈ (handleMessages_cleanup
      (handleWebSocket_register (handleWebSocket_register s c1 user).1 c2 user).1
      c1 user).2 → c = c1) ∧
    mapGet (Controllers.HandleWS_register (Controllers.HandleWS_register h c1 userID).1
      c2 userID).1.connections userID = some c2 ∧
    mapGet (Controllers.HandleWS_cleanup
      (Controllers.HandleWS_register (Controllers.HandleWS_register h c1 userID).1
        c2 userID).1 c1 userID).1.connections userID = none := by
  refine ⟨mapGet_mapSet_self _ _ _, ?_, ?_, mapGet_mapSet_self _ _ _,
    mapGet_mapDelete_self _ _⟩
  · unfold handleMessages_cleanup
    have hconn : ∀ (t : State) (id : String), (leaveRoom t id).1.connections = t.connections := by
      intro t id
      unfold leaveRoom
      split <;> rfl
    show mapGet (leaveRoom _ _).1.connections _ = none
    rw [hconn]
    exact mapGet_mapDelete_self _ _
  · intro c hc
    unfold handleMessages_cleanup at hc
    simp only [List.mem_append, List.mem_singleton] at hc
    rcases hc with hc | hc
    · exfalso
      unfold leaveRoom at hc
      split at hc
      · simp at hc
      · unfold sendJSON at hc
        split at hc
        · simp at hc
        · simp at hc
    · exact Effect.close.inj hc

theorem demoRetargeted_reachable : Reachable demoRetargeted :=
  Reachable.step (demoQueue [entryA])
    (Event.message 100 0 (demoOracle 6) (Inbound.update_languages (some ("fr", ""))))
    demoQueue_A_reachable

/-- C19 (as the claim states it, refuted): A was enqueued as es to en, reciprocal to B,
and then sent update_languages with native language fr; the entry of A is unchanged,
yet the join_queue of B finds no partner and B is queued behind A.  And with P1 and A
queued, once A has sent update_interests with no interest, B is matched with P1: the
score of A is computed from the new, empty list. -/
theorem C19_queued_entry_sees_updates :
    Reachable demoRetargeted ∧ demoRetargeted.queue = [entryA] ∧
    eligible (demoUsers 1) (demoUsers 0) = true ∧
    (handleJoinQueue (demoQueue [entryA]) (demoOracle 7) (some 101) 1).1.rooms.length = 1 ∧
    (handleJoinQueue demoRetargeted (demoOracle 7) (some 101) 1).1.rooms = [] ∧
    (handleJoinQueue demoRetargeted (demoOracle 7) (some 101) 1).1.queue =
      [entryA, ("b", joinEntry (demoOracle 7) (some 101) 1)] ∧
    demoEmptied.queue = [entryP1, entryA] ∧
    (handleJoinQueue (demoQueue [entryP1, entryA]) (demoOracle 7) (some 101) 1).1.rooms =
      [(newRoomID (demoOracle 7), joinRoom (demoOracle 7) (some 101) 1 entryA.2)] ∧
    (handleJoinQueue demoEmptied (demoOracle 7) (some 101) 1).1.rooms =
      [(newRoomID (demoOracle 7), joinRoom (demoOracle 7) (some 101) 1 entryP1.2)] :=
  ⟨demoRetargeted_reachable, by decide, by decide, by decide, by decide, by decide,
   by decide, by decide, by decide⟩

/-- C19 (amended): a queue entry holds a reference to the identity.  When P sends
update_languages or update_interests, the queue is unchanged, and for the entry of P
the scan of a later handleJoinQueue by another identity tests eligibility and computes
the score on the updated languages and interests of P. -/
theorem C19_scan_reads_current_profile (s : State) (p user : UserPtr)
    (kv : String × QueueEntry) (b : Best) (hne : user ≠ p) (hkv : kv.2.User = p) :
    (∀ langs : String × String,
      (handleUpdateLanguages s p (some langs)).1.queue = s.queue ∧
      scanStep (handleUpdateLanguages s p (some langs)).1
        ((handleUpdateLanguages s p (some langs)).1.users user) b kv =
        if eligible (s.users user) (setLanguages (s.users p) langs.1 langs.2) = true then
          if matchScore (s.users user) (setLanguages (s.users p) langs.1 langs.2) > b.bestScore
          then ⟨some kv.2, kv.1,
            matchScore (s.users user) (setLanguages (s.users p) langs.1 langs.2)⟩
          else b
        else b) ∧
    (∀ interests : List String,
      (handleUpdateInterests s p (some interests)).1.queue = s.queue ∧
      scanStep (handleUpdateInterests s p (some interests)).1
        ((handleUpdateInterests s p (some interests)).1.users user) b kv =
        if eligible (s.users user) { s.users p with Interests := interests } = true then
          if matchScore (s.users user) { s.users p with Interests := interests } > b.bestScore
          then ⟨some kv.2, kv.1,
            matchScore (s.users user) { s.users p with Interests := interests }⟩
          else b
        else b) ∧
    (∀ (langs : String × String) (o : Oracle) (conn : Option Conn),
      ¬ inQueue (handleUpdateLanguages s p (some langs)).1 (s.users user).ID →
      ¬ inSomeRoom (handleUpdateLanguages s p (some langs)).1 (s.users user).ID →
      ∀ kvNew ∈ (handleJoinQueue (handleUpdateLanguages s p (some langs)).1 o conn user).1.rooms,
        kvNew ∉ (handleUpdateLanguages s p (some langs)).1.rooms → kvNew.2.User2.User = p →
        eligible (s.users user) (setLanguages (s.users p) langs.1 langs.2) = true) := by
  refine ⟨?_, ?_, ?_⟩
  · intro langs
    refine ⟨rfl, ?_⟩
    simp only [handleUpdateLanguages, scanStep, hkv, Function.update_same,
      Function.update_noteq hne]
  · intro interests
    refine ⟨rfl, ?_⟩
    simp only [handleUpdateInterests, scanStep, hkv, Function.update_same,
      Function.update_noteq hne]
  · intro langs o conn hq hr kvNew h1 h2 hp
    have hu : (handleUpdateLanguages s p (some langs)).1.users user = s.users user := by
      simp only [handleUpdateLanguages, Function.update_noteq hne]
    have hpv : (handleUpdateLanguages s p (some langs)).1.users p =
        setLanguages (s.users p) langs.1 langs.2 := by
      simp only [handleUpdateLanguages, Function.update_same]
    rw [← hu] at hq hr
    obtain ⟨P, hP, hnew⟩ := (handleJoinQueue_new_room _ o conn user hq hr kvNew).1 ⟨h1, h2⟩
    obtain ⟨_, _, _, hel, _⟩ := scanQueue_some _ _ P hP
    have hPp : P.User = p := by rw [hnew] at hp; exact hp
    rw [hu, hPp, hpv] at hel
    exact hel

theorem C19_scan_reads_current_profile_witness :
    (handleUpdateLanguages (demoQueue [entryA]) 0 (some ("fr", ""))).1.queue =
      (demoQueue [entryA]).queue ∧
    scanStep (handleUpdateLanguages (demoQueue [entryA]) 0 (some ("fr", ""))).1
      ((handleUpdateLanguages (demoQueue [entryA]) 0 (some ("fr", ""))).1.users 1)
      ⟨none, "", 0⟩ entryA =
      if eligible ((demoQueue [entryA]).users 1)
          (setLanguages ((demoQueue [entryA]).users 0) ("fr", "").1 ("fr", "").2) = true then
        if matchScore ((demoQueue [entryA]).users 1)
            (setLanguages ((demoQueue [entryA]).users 0) ("fr", "").1 ("fr", "").2) >
            (⟨none, "", 0⟩ : Best).bestScore
        then ⟨some entryA.2, entryA.1,
          matchScore ((demoQueue [entryA]).users 1)
            (setLanguages ((demoQueue [entryA]).users 0) ("fr", "").1 ("fr", "").2)⟩
        else ⟨none, "", 0⟩
      else ⟨none, "", 0⟩ :=
  (C19_scan_reads_current_profile (demoQueue [entryA]) 0 1 entryA ⟨none, "", 0⟩
    (by decide) rfl).1 ("fr", "")

/-! ## The room map has one room per key and per identity -/

theorem mapDelete_sublist {β : Type} (m : List (String × β)) (k : String) :
    (mapDelete m k).Sublist m := List.filter_sublist m

theorem mapSet_keys_nodup {β : Type} (m : List (String × β)) (k : String) (v : β)
    (h : (m.map Prod.fst).Nodup) : ((mapSet m k v).map Prod.fst).Nodup := by
  unfold mapSet
  rw [List.map_append, List.nodup_append]
  refine ⟨h.sublist ((mapDelete_sublist m k).map _), by simp, ?_⟩
  intro x hx hk
  simp only [List.map_cons, List.map_nil, List.mem_singleton] at hk
  obtain ⟨kv, hkv, rfl⟩ := List.mem_map.1 hx
  exact ((mem_mapDelete m k kv).1 hkv).2 hk

theorem rooms_leaveRoom_sublist (s : State) (id : String) :
    (leaveRoom s id).1.rooms.Sublist s.rooms := by
  unfold leaveRoom
  split
  · exact List.Sublist.refl _
  · exact mapDelete_sublist _ _

theorem rooms_dispatch_other_sublist (s : State) (o : Oracle) (conn : Conn) (user : UserPtr)
    (msg : Inbound) (hmsg : msg ≠ Inbound.join_queue) :
    (handleMessages_dispatch s o conn user msg).1.rooms.Sublist s.rooms := by
  cases msg with
  | join_queue => exact absurd rfl hmsg
  | leave_queue => exact List.Sublist.refl _
  | chat payload =>
    simp only [handleMessages_dispatch, handleChat]
    repeat' split
    all_goals exact List.Sublist.refl _
  | typing =>
    simp only [handleMessages_dispatch, handleTyping]
    split <;> exact List.Sublist.refl _
  | stop_typing =>
    simp only [handleMessages_dispatch, handleTyping]
    split <;> exact List.Sublist.refl _
  | update_languages payload =>
    simp only [handleMessages_dispatch, handleUpdateLanguages]
    split <;> exact List.Sublist.refl _
  | update_interests payload =>
    simp only [handleMessages_dispatch, handleUpdateInterests]
    split <;> exact List.Sublist.refl _
  | report_user payload =>
    simp only [handleMessages_dispatch, handleReportUser]
    repeat' split
    all_goals exact List.Sublist.refl _
  | block_user => exact rooms_leaveRoom_sublist s _
  | leave_room => exact rooms_leaveRoom_sublist s _
  | ping => exact List.Sublist.refl _
  | other tag => exact List.Sublist.refl _

theorem rooms_handleJoinQueue_keys_nodup (s : State) (o : Oracle) (conn : Option Conn)
    (user : UserPtr) (h : (s.rooms.map Prod.fst).Nodup) :
    ((handleJoinQueue s o conn user).1.rooms.map Prod.fst).Nodup := by
  by_cases hq : inQueue s (s.users user).ID
  · rw [handleJoinQueue_queued s o _ user hq]; exact h
  by_cases hr : inSomeRoom s (s.users user).ID
  · rw [handleJoinQueue_inRoom s o _ user hq hr]; exact h
  cases hm : (scanQueue s (s.users user)).bestMatch with
  | none => rw [handleJoinQueue_nomatch s o _ user hq hr hm]; exact h
  | some P =>
    rw [handleJoinQueue_match s o _ user P hq hr hm]
    exact mapSet_keys_nodup _ _ _ h

/-- In every reachable state the room map has at most one room under each key. -/
theorem rooms_keys_nodup (s : State) (h : Reachable s) : (s.rooms.map Prod.fst).Nodup := by
  induction h with
  | init users => simp [initState]
  | step s ev _ ih =>
    cases ev with
    | connect conn user => exact ih
    | message conn user o msg =>
      by_cases hmsg : msg = Inbound.join_queue
      · subst hmsg; exact rooms_handleJoinQueue_keys_nodup s o (some conn) user ih
      · exact ih.sublist ((rooms_dispatch_other_sublist s o conn user msg hmsg).map _)
    | disconnect conn user =>
      exact ih.sublist ((rooms_leaveRoom_sublist _ _).map _)
    | updatePrefs user native target => exact ih
  | reorder s q r _ hq hr ih =>
    exact (List.Perm.nodup_iff (hr.map Prod.fst)).2 ih

/-- C20: in every reachable state the room map has one room per key and no identity
id is a member of two of its rooms; and a match in handleJoinQueue adds a room only
for a sender and a partner neither of whom is a member of a room already. -/
theorem C20_one_room_per_identity (s : State) (h : Reachable s) :
    (s.rooms.map Prod.fst).Nodup ∧
    (∀ r1 ∈ s.rooms, ∀ r2 ∈ s.rooms, ∀ id,
      isMember s id r1.2 = true → isMember s id r2.2 = true → r1 = r2) ∧
    (∀ (o : Oracle) (conn : Option Conn) (user : UserPtr),
      ∀ kv ∈ (handleJoinQueue s o conn user).1.rooms, kv ∉ s.rooms →
        ¬ inSomeRoom s (s.users kv.2.User1.User).ID ∧
        ¬ inSomeRoom s (s.users kv.2.User2.User).ID) := by
  have hs := Inv_of_Reachable s h
  refine ⟨rooms_keys_nodup s h, hs.single, ?_⟩
  intro o conn user kv h1 h2
  by_cases hq : inQueue s (s.users user).ID
  · rw [handleJoinQueue_queued s o _ user hq] at h1; exact absurd h1 h2
  by_cases hr : inSomeRoom s (s.users user).ID
  · rw [handleJoinQueue_inRoom s o _ user hq hr] at h1; exact absurd h1 h2
  obtain ⟨P, hP, hkv⟩ := (handleJoinQueue_new_room s o conn user hq hr kv).1 ⟨h1, h2⟩
  obtain ⟨l1, l2, hl, _⟩ := scanQueue_some s (s.users user) P hP
  have hmem : ((scanQueue s (s.users user)).bestMatchID, P) ∈ s.queue := by rw [hl]; simp
  subst hkv
  refine ⟨hr, ?_⟩
  rintro ⟨r, hrmem, hm⟩
  have hd := hs.disj _ hmem r hrmem
  have hk := hs.key _ hmem
  simp only [joinRoom] at hm
  rw [hk, hd] at hm
  exact absurd hm (by simp)

theorem C20_one_room_per_identity_witness :
    (demoMatched.rooms.map Prod.fst).Nodup ∧
    (∀ r1 ∈ demoMatched.rooms, ∀ r2 ∈ demoMatched.rooms, ∀ id,
      isMember demoMatched id r1.2 = true → isMember demoMatched id r2.2 = true → r1 = r2) ∧
    (∀ (o : Oracle) (conn : Option Conn) (user : UserPtr),
      ∀ kv ∈ (handleJoinQueue demoMatched o conn user).1.rooms, kv ∉ demoMatched.rooms →
        ¬ inSomeRoom demoMatched (demoMatched.users kv.2.User1.User).ID ∧
        ¬ inSomeRoom demoMatched (demoMatched.users kv.2.User2.User).ID) :=
  C20_one_room_per_identity demoMatched demoMatched_reachable

end Vox
